import Mathlib

/-!
# AstrologyApp: aspect detection and chart projection

A shallow embedding of the aspect resolver, the orb policy, the point assembly
and the angular helpers of `src/ui_main.cpp`, together with the theorems that
settle the specification's claims about them.

Modelling conventions.

* The C `float` and `double` values are modelled as exact rationals (`ℚ`):
  every finite floating point value is a rational, and the theorems speak about
  the arithmetic of the source without rounding. The one exception is
  `norm360_double`, which rounds the addition of `norm360` to the nearest `double`
  (`roundDouble`); it is the definition behind the statements on the range and
  the idempotence of `norm360` on doubles.
* The global variables of the translation unit (`gAspects`, the six
  `gOrb...` multipliers, the five `gUse...` flags) are passed explicitly.
* A pointer into the catalog (`const AspectSetting* best`) is the index of
  the entry it points to.
* Conversions between `double` and `float` are the identity, and decimal
  literals such as `0.4f` or `2.2f` are the decimal fractions they denote.
* The Swiss Ephemeris call and the C math library are parameters, and so are
  the C++ standard library conversions and the time-zone conversion that the
  Compute handler calls.
* A `std::string` is a `String`; the inputs considered are ASCII, so `size()` is
  `length`.
* A `try` block is a function to the state on leaving it together with the
  message of the exception, if one was thrown.
* `std_stoi` models `std::stoi`; where a theorem needs the conversions to read
  decimal digits it says so by the hypothesis `ReadsDigits`.
-/

set_option autoImplicit false

namespace AstrologyApp

/-! ## Angular helpers -/

/-- Rounding toward zero, the integer quotient that the C library's `fmod`
subtracts. -/
def truncQ (q : ℚ) : ℤ := if 0 ≤ q then ⌊q⌋ else ⌈q⌉

/-- The C library's `fmod` / `fmodf` in exact arithmetic: `x - n * y` where `n` is
`x / y` rounded toward zero, so the result has the sign of `x`. -/
def fmodf (x y : ℚ) : ℚ := x - y * (truncQ (x / y) : ℚ)

/-- Source: `static inline double norm360(double x)`, `ui_main.cpp:40`, in exact
arithmetic: the sum `y + 360.0` is not rounded. The definition with the rounding of
double arithmetic is `norm360_double`; the two agree wherever `fmod` is not negative
(`norm360_double_of_nonneg`). -/
def norm360 (x : ℚ) : ℚ :=
  let y := fmodf x 360
  if y < 0 then y + 360 else y

/-- Source: `static inline float deg2rad(float deg)`, `ui_main.cpp:44`; the constant
`M_PI` of `<cmath>` is a parameter. -/
def deg2rad (M_PI : ℚ) (deg : ℚ) : ℚ := deg * M_PI / 180

/-- The body of `ecl_to_screen_angle` (`ui_main.cpp:54-62`) up to, and not
including, the final `deg2rad`: the wheel angle in degrees. -/
def ecl_to_screen_deg (ecl_deg asc_deg : ℚ) : ℚ :=
  let a := fmodf (asc_deg - ecl_deg) 360
  let a := if a < 0 then a + 360 else a
  let a := a + 180
  let a := if a ≥ 360 then a - 360 else a
  a

/-- Source: `static inline float ecl_to_screen_angle(float ecl_deg, float asc_deg)`,
`ui_main.cpp:54-65`. -/
def ecl_to_screen_angle (M_PI : ℚ) (ecl_deg asc_deg : ℚ) : ℚ :=
  deg2rad M_PI (ecl_to_screen_deg ecl_deg asc_deg)

/-- The lambda `shortest_sep` of `wWinMain`, `ui_main.cpp:707-711`. -/
def shortest_sep (a b : ℚ) : ℚ :=
  let d := fmodf |a - b| 360
  if d > 180 then 360 - d else d

/-! ## Aspect catalog and orb policy -/

/-- Source: `struct AspectSetting`, `ui_main.cpp:100-107`; the colour is the packed
`ImU32` value. -/
structure AspectSetting where
  label : String
  angle : ℚ
  base_orb : ℚ
  color : Nat
  width : ℚ
  enabled : Bool
  deriving DecidableEq

/-- The six orb multipliers `gOrbGlobal` ... `gOrbPoints`, `ui_main.cpp:140-146`. -/
structure OrbSettings where
  gOrbGlobal : ℚ
  gOrbLuminaries : ℚ
  gOrbPersonal : ℚ
  gOrbSocial : ℚ
  gOrbOuter : ℚ
  gOrbPoints : ℚ
  deriving DecidableEq

/-- Source: `static float orb_weight_for(const std::string& n)`, `ui_main.cpp:182-195`. -/
def orb_weight_for (g : OrbSettings) (n : String) : ℚ :=
  if n = "Sun" ∨ n = "Moon" then
    g.gOrbLuminaries * g.gOrbGlobal
  else if n = "Mercury" ∨ n = "Venus" ∨ n = "Mars" then
    g.gOrbPersonal * g.gOrbGlobal
  else if n = "Jupiter" ∨ n = "Saturn" then
    g.gOrbSocial * g.gOrbGlobal
  else if n = "Uranus" ∨ n = "Neptune" ∨ n = "Pluto" then
    g.gOrbOuter * g.gOrbGlobal
  else if n = "ASC" ∨ n = "MC" ∨ n = "True Node" ∨ n = "Mean Node" ∨ n = "Chiron"
      ∨ n = "Lilith" then
    g.gOrbPoints * g.gOrbGlobal
  else
    g.gOrbGlobal

/-! ## The aspect resolver loop -/

/-- The two locals of the resolver: `best` (the index of the catalog entry the
pointer refers to, `none` for `nullptr`) and `bestDelta`. -/
structure BestState where
  best : Option Nat
  bestDelta : ℚ
  deriving DecidableEq

/-- One iteration of `for (const auto& A : gAspects)`, `ui_main.cpp:755-763`, on the
entry `A` at catalog index `i`. -/
def resolveStep (sep scale : ℚ) (st : BestState) (i : Nat) (A : AspectSetting) :
    BestState :=
  if !A.enabled then st
  else
    let allow := A.base_orb * scale
    let delta := |sep - A.angle|
    if delta ≤ allow ∧ delta < st.bestDelta then ⟨some i, delta⟩ else st

/-- The loop over the catalog, from index `i` on, threading `best` / `bestDelta`. -/
def resolveLoop (sep scale : ℚ) : List AspectSetting → Nat → BestState → BestState
  | [], _, st => st
  | A :: rest, i, st => resolveLoop sep scale rest (i + 1) (resolveStep sep scale st i A)

/-- The value of `best` after the loop, `ui_main.cpp:749-763`: `bestDelta` starts
at `1e9f`. -/
def selectBest (cat : List AspectSetting) (sep scale : ℚ) : Option Nat :=
  (resolveLoop sep scale cat 0 ⟨none, 1000000000⟩).best

/-- What is drawn for one pair, `ui_main.cpp:765-769`: the selected entry, unless
it is suppressed as a near-perfect conjunction (`continue`). -/
def drawnAspect (cat : List AspectSetting) (sep scale : ℚ) : Option Nat :=
  match selectBest cat sep scale with
  | none => none
  | some k =>
    match cat[k]? with
    | none => none
    | some A => if A.angle = 0 ∧ sep < 2 / 5 then none else some k

/-! ## Chart data and point assembly -/

/-- Source: `struct Body`, `ui_main.cpp:233`. -/
structure Body where
  name : String
  lon : ℚ
  lat : ℚ
  speed : ℚ
  retro : Bool
  deriving DecidableEq

/-- Source: `struct Houses`, `ui_main.cpp:234`: `double cusps[13]; double ascmc[10];`. -/
structure Houses where
  cusps : Fin 13 → ℚ
  ascmc : Fin 10 → ℚ

/-- Modelled from the spec: the index of the Ascendant in `ascmc`, a constant of
the Swiss Ephemeris header `swephexp.h` (`#define SE_ASC 0`). -/
def SE_ASC : Fin 10 := 0

/-- Modelled from the spec: the index of the Midheaven in `ascmc`, a constant of
the Swiss Ephemeris header `swephexp.h` (`#define SE_MC 1`). -/
def SE_MC : Fin 10 := 1

/-- Modelled from the spec: the body numbers of the Swiss Ephemeris header
`swephexp.h` that `computePlanets` iterates over, in the order of `kBodies`
(`SE_SUN` ... `SE_PLUTO` are 0 ... 9, `SE_TRUE_NODE` 11, `SE_CHIRON` 15,
`SE_MEAN_APOG` 12). -/
def kBodies : List Nat := [0, 1, 2, 3, 4, 5, 6, 7, 8, 9, 11, 15, 12]

/-- The `switch (ipl)` of `computePlanets`, `ui_main.cpp:257-263`. -/
def bodyName (ipl : Nat) : String :=
  if ipl = 0 then "Sun" else if ipl = 1 then "Moon" else if ipl = 2 then "Mercury"
  else if ipl = 3 then "Venus" else if ipl = 4 then "Mars" else if ipl = 5 then "Jupiter"
  else if ipl = 6 then "Saturn" else if ipl = 7 then "Uranus" else if ipl = 8 then "Neptune"
  else if ipl = 9 then "Pluto" else if ipl = 11 then "True Node"
  else if ipl = 15 then "Chiron" else if ipl = 12 then "Lilith" else "Body"

/-- The loop of `AstrologyChart::computePlanets`, `ui_main.cpp:252-266`. The
ephemeris call `swe_calc_ut(jd_ut, ipl, ...)` is the parameter `swe_calc_ut`: `none` is a
negative return code (the function throws), `some xx` the six output values. -/
def computePlanetsLoop (swe_calc_ut : Nat → Option (Fin 6 → ℚ)) :
    List Nat → List Body → Option (List Body)
  | [], bodies => some bodies
  | ipl :: rest, bodies =>
    match swe_calc_ut ipl with
    | none => none
    | some xx =>
      computePlanetsLoop swe_calc_ut rest
        (bodies ++ [⟨bodyName ipl, norm360 (xx 0), xx 1, xx 3, decide (xx 3 < 0)⟩])

/-- Source: `AstrologyChart::computePlanets`, `ui_main.cpp:249-267`: `bodies.clear()`, then the
loop over `kBodies`. -/
def computePlanets (swe_calc_ut : Nat → Option (Fin 6 → ℚ)) : Option (List Body) :=
  computePlanetsLoop swe_calc_ut kBodies []

/-- The type `ImVec2` of Dear ImGui: a point of the screen. -/
structure ImVec2 where
  x : ℚ
  y : ℚ
  deriving DecidableEq

/-- The constant and the two functions of the C math library that the drawing
code uses; they are parameters of the model. -/
structure Libm where
  M_PI : ℚ
  cosf : ℚ → ℚ
  sinf : ℚ → ℚ

/-- Source: `static inline ImVec2 polar(const ImVec2& C, float R, float angRad)`,
`ui_main.cpp:45-47`. -/
def polar (m : Libm) (C : ImVec2) (R angRad : ℚ) : ImVec2 :=
  ⟨C.x + R * m.cosf angRad, C.y + R * m.sinf angRad⟩

/-- Source: `struct P` with the fields `ImVec2 p`, `float lon`, `std::string name`,
`ui_main.cpp:714`. -/
structure P where
  p : ImVec2
  lon : ℚ
  name : String
  deriving DecidableEq

/-- The five inclusion flags `gUseASC` ... `gUseLilith`, `ui_main.cpp:149-153`. -/
structure PointFlags where
  gUseASC : Bool
  gUseMC : Bool
  gUseNode : Bool
  gUseChiron : Bool
  gUseLilith : Bool
  deriving DecidableEq

/-- The drawing context of one frame that point assembly reads: the math
library, the wheel centre, the radius `R_line`. -/
structure Wheel where
  m : Libm
  center : ImVec2
  R_line : ℚ

/-- The initializer `{ polar(center, R_line, ecl_to_screen_angle(lon, asc)), lon,
name }` that every `ps.push_back` of `ui_main.cpp:719-741` builds. -/
def mkP (w : Wheel) (asc lon : ℚ) (name : String) : P :=
  ⟨polar w.m w.center w.R_line (ecl_to_screen_angle w.m.M_PI lon asc), lon, name⟩

/-- The loop `for (const auto& b : outBodies) ps.push_back(...)`,
`ui_main.cpp:719-722`. -/
def pushBodies (w : Wheel) (asc : ℚ) : List Body → List P → List P
  | [], ps => ps
  | b :: rest, ps => pushBodies w asc rest (ps ++ [mkP w asc b.lon b.name])

/-- The blocks `if (gUseChiron) { auto it = std::find_if(...); if (it != end) ... }`
of `ui_main.cpp:733-741`, for the name `n`. -/
def pushNamed (w : Wheel) (asc : ℚ) (outBodies : List Body) (n : String)
    (ps : List P) : List P :=
  match outBodies.find? (fun b => b.name == n) with
  | some it => ps ++ [mkP w asc it.lon it.name]
  | none => ps

/-- Point assembly, `ui_main.cpp:717-741`. `outBodies.back()` is undefined on an
empty vector: the model returns `none` there. -/
def assemblePoints (w : Wheel) (g : PointFlags) (outBodies : List Body) (outH : Houses) :
    Option (List P) :=
  let asc := outH.ascmc SE_ASC
  let ps := pushBodies w asc outBodies []
  let lonASC := outH.ascmc SE_ASC
  let lonMC := outH.ascmc SE_MC
  match outBodies.getLast? with
  | none => none
  | some back =>
    let lonNode := back.lon
    let ps := if g.gUseASC then ps ++ [mkP w asc lonASC "ASC"] else ps
    let ps := if g.gUseMC then ps ++ [mkP w asc lonMC "MC"] else ps
    let ps := if g.gUseNode then ps ++ [mkP w asc lonNode "True Node"] else ps
    let ps := if g.gUseChiron then pushNamed w asc outBodies "Chiron" ps else ps
    let ps := if g.gUseLilith then pushNamed w asc outBodies "Lilith" ps else ps
    some ps

/-- The separation of a pair of assembled points, `ui_main.cpp:747`. -/
def sepOf (p q : P) : ℚ := shortest_sep p.lon q.lon

/-- The orb scale of a pair, `ui_main.cpp:753`: the smaller of the two weights. -/
def scaleOf (g : OrbSettings) (p q : P) : ℚ :=
  min (orb_weight_for g p.name) (orb_weight_for g q.name)

/-- The resolver loop on the pair of assembled points `p`, `q`
(`ui_main.cpp:747-763`): the value of `best` after the loop. -/
def bestFor (cat : List AspectSetting) (g : OrbSettings) (p q : P) : Option Nat :=
  selectBest cat (sepOf p q) (scaleOf g p q)

/-- What is drawn for the pair `p`, `q`, `ui_main.cpp:747-769`. -/
def aspectFor (cat : List AspectSetting) (g : OrbSettings) (p q : P) : Option Nat :=
  drawnAspect cat (sepOf p q) (scaleOf g p q)

/-! ## Specification-side notions for the resolver -/

/-- The `delta` of a definition for a separation: `|sep - angle|`. -/
def deltaOf (sep : ℚ) (A : AspectSetting) : ℚ := |sep - A.angle|

/-- A candidate in the specification's words: an enabled definition whose `delta`
is within `base_orb * scale`. -/
def IsCandidate (sep scale : ℚ) (A : AspectSetting) : Prop :=
  A.enabled = true ∧ deltaOf sep A ≤ A.base_orb * scale

/-- The catalog index `k` is the first index attaining the minimal candidate
`delta`: its entry is a candidate, no candidate has a smaller `delta`, and every
candidate at an earlier index has a strictly larger one. -/
def IsFirstBest (cat : List AspectSetting) (sep scale : ℚ) (k : Nat) : Prop :=
  ∃ A, cat[k]? = some A ∧ IsCandidate sep scale A ∧
    (∀ (j : Nat) (B : AspectSetting), cat[j]? = some B → IsCandidate sep scale B → deltaOf sep A ≤ deltaOf sep B) ∧
    (∀ (j : Nat) (B : AspectSetting), j < k → cat[j]? = some B → IsCandidate sep scale B →
      deltaOf sep A < deltaOf sep B)


/-! ## The startup configuration -/

/-- The packing `IM_COL32(R, G, B, A)` of Dear ImGui. -/
def IM_COL32 (r g b a : Nat) : Nat := a * 2 ^ 24 + b * 2 ^ 16 + g * 2 ^ 8 + r

/-- The initial value of `gAspects`, `ui_main.cpp:123-137`. -/
def gAspects : List AspectSetting :=
  [ ⟨"Conjunction", 0, 6, IM_COL32 230 230 230 190, 11 / 5, true⟩,
    ⟨"Opposition", 180, 5, IM_COL32 230 190 90 175, 2, true⟩,
    ⟨"Trine", 120, 5, IM_COL32 140 235 160 160, 19 / 10, true⟩,
    ⟨"Square", 90, 5, IM_COL32 255 120 120 180, 19 / 10, true⟩,
    ⟨"Sextile", 60, 4, IM_COL32 120 200 255 170, 9 / 5, true⟩,
    ⟨"Semisextile", 30, 11 / 5, IM_COL32 180 180 180 120, 13 / 10, false⟩,
    ⟨"Semisquare", 45, 11 / 5, IM_COL32 210 160 110 130, 13 / 10, false⟩,
    ⟨"Sesquiquadrate", 135, 11 / 5, IM_COL32 255 160 100 150, 13 / 10, false⟩,
    ⟨"Quintile", 72, 9 / 5, IM_COL32 200 160 255 140, 6 / 5, false⟩,
    ⟨"Biquintile", 144, 9 / 5, IM_COL32 190 150 245 145, 6 / 5, false⟩,
    ⟨"Quincunx", 150, 5 / 2, IM_COL32 200 200 140 150, 3 / 2, true⟩ ]

/-- The initial values of the six orb multipliers, `ui_main.cpp:140-146`. -/
def gOrbInit : OrbSettings :=
  { gOrbGlobal := 1, gOrbLuminaries := 8 / 5, gOrbPersonal := 5 / 4,
    gOrbSocial := 11 / 10, gOrbOuter := 19 / 20, gOrbPoints := 9 / 10 }

/-- The initial values of the five inclusion flags, `ui_main.cpp:149-153`. -/
def gUseInit : PointFlags :=
  { gUseASC := true, gUseMC := true, gUseNode := true, gUseChiron := true,
    gUseLilith := true }


/-! ## Specification-side notions for point assembly, and sample data -/

/-- The names of the extra points in the specification's words: one per set flag,
Chiron and Lilith only when a body of that exact name exists. -/
def specExtraNames (g : PointFlags) (names : List String) : List String :=
  (if g.gUseASC then ["ASC"] else []) ++
  (if g.gUseMC then ["MC"] else []) ++
  (if g.gUseNode then ["True Node"] else []) ++
  (if g.gUseChiron ∧ "Chiron" ∈ names then ["Chiron"] else []) ++
  (if g.gUseLilith ∧ "Lilith" ∈ names then ["Lilith"] else [])

/-- A sample ephemeris: every call succeeds with all six values zero. -/
def sampleEphemeris : Nat → Option (Fin 6 → ℚ) := fun _ => some (fun _ => 0)

/-- The thirteen bodies that `computePlanets` produces on `sampleEphemeris`. -/
def sampleBodies : List Body :=
  [ ⟨"Sun", 0, 0, 0, false⟩, ⟨"Moon", 0, 0, 0, false⟩, ⟨"Mercury", 0, 0, 0, false⟩,
    ⟨"Venus", 0, 0, 0, false⟩, ⟨"Mars", 0, 0, 0, false⟩, ⟨"Jupiter", 0, 0, 0, false⟩,
    ⟨"Saturn", 0, 0, 0, false⟩, ⟨"Uranus", 0, 0, 0, false⟩, ⟨"Neptune", 0, 0, 0, false⟩,
    ⟨"Pluto", 0, 0, 0, false⟩, ⟨"True Node", 0, 0, 0, false⟩, ⟨"Chiron", 0, 0, 0, false⟩,
    ⟨"Lilith", 0, 0, 0, false⟩ ]

/-- Sample houses: every cusp and every `ascmc` entry is zero. -/
def sampleHouses : Houses := ⟨fun _ => 0, fun _ => 0⟩

/-- A sample drawing context. -/
def sampleWheel : Wheel := ⟨⟨3, fun _ => 1, fun _ => 0⟩, ⟨0, 0⟩, 1⟩

/-- A sample point of the wheel with the given longitude and name. -/
def samplePoint (lon : ℚ) (name : String) : P := ⟨⟨0, 0⟩, lon, name⟩

/-- A catalog in which two enabled definitions share the angle 120. -/
def tieCatalog : List AspectSetting :=
  [ ⟨"Opposition", 180, 5, 0, 1, true⟩,
    ⟨"Trine", 120, 5, 0, 1, true⟩,
    ⟨"Trine bis", 120, 5, 0, 1, true⟩ ]


/-! ## Configuration state, edits and reset -/

/-- The configuration globals of `ui_main.cpp:123-153`: the catalog `gAspects`, the six
orb multipliers and the five inclusion flags. -/
structure Config where
  aspects : List AspectSetting
  orbs : OrbSettings
  use : PointFlags
  deriving DecidableEq

/-- The configuration at program start: the initializers of `ui_main.cpp:123-153`. -/
def startupConfig : Config := ⟨gAspects, gOrbInit, gUseInit⟩

/-- The body of the button "Reset aspect defaults", `ui_main.cpp:541-559`: the three
groups of assignments, with the catalog literal as it is written there. -/
def resetAspectDefaults (c : Config) : Config :=
  { c with
    aspects :=
      [ ⟨"Conjunction", 0, 6, IM_COL32 230 230 230 190, 11 / 5, true⟩,
        ⟨"Opposition", 180, 5, IM_COL32 230 190 90 175, 2, true⟩,
        ⟨"Trine", 120, 5, IM_COL32 140 235 160 160, 19 / 10, true⟩,
        ⟨"Square", 90, 5, IM_COL32 255 120 120 180, 19 / 10, true⟩,
        ⟨"Sextile", 60, 4, IM_COL32 120 200 255 170, 9 / 5, true⟩,
        ⟨"Semisextile", 30, 11 / 5, IM_COL32 180 180 180 120, 13 / 10, false⟩,
        ⟨"Semisquare", 45, 11 / 5, IM_COL32 210 160 110 130, 13 / 10, false⟩,
        ⟨"Sesquiquadrate", 135, 11 / 5, IM_COL32 255 160 100 150, 13 / 10, false⟩,
        ⟨"Quintile", 72, 9 / 5, IM_COL32 200 160 255 140, 6 / 5, false⟩,
        ⟨"Biquintile", 144, 9 / 5, IM_COL32 190 150 245 145, 6 / 5, false⟩,
        ⟨"Quincunx", 150, 5 / 2, IM_COL32 200 200 140 150, 3 / 2, true⟩ ],
    orbs :=
      { gOrbLuminaries := 8 / 5, gOrbPersonal := 5 / 4, gOrbSocial := 11 / 10,
        gOrbOuter := 19 / 20, gOrbPoints := 9 / 10, gOrbGlobal := 1 },
    use :=
      { gUseASC := true, gUseMC := true, gUseNode := true, gUseChiron := true,
        gUseLilith := true } }

/-- One edit of the panel "Aspect settings", `ui_main.cpp:495-539`: a checkbox or the
colour editor of a catalog row, a multiplier slider, an inclusion checkbox. -/
inductive ConfigEdit where
  | setEnabled (i : Nat) (b : Bool)
  | setColor (i : Nat) (r g b : Nat)
  | setOrbGlobal (v : ℚ)
  | setOrbLuminaries (v : ℚ)
  | setOrbPersonal (v : ℚ)
  | setOrbSocial (v : ℚ)
  | setOrbOuter (v : ℚ)
  | setOrbPoints (v : ℚ)
  | setUseASC (b : Bool)
  | setUseMC (b : Bool)
  | setUseNode (b : Bool)
  | setUseChiron (b : Bool)
  | setUseLilith (b : Bool)

/-- The effect of one edit on the configuration. The colour editor keeps the alpha
byte of the old colour, as `EditColorFromU32` does (`ui_main.cpp:167-179`). -/
def applyEdit (c : Config) : ConfigEdit → Config
  | .setEnabled i b => { c with aspects := c.aspects.modify (fun A => { A with enabled := b }) i }
  | .setColor i r g b =>
    { c with
      aspects :=
        c.aspects.modify
          (fun A => { A with color := IM_COL32 r g b ((A.color / 2 ^ 24) % 256) }) i }
  | .setOrbGlobal v => { c with orbs := { c.orbs with gOrbGlobal := v } }
  | .setOrbLuminaries v => { c with orbs := { c.orbs with gOrbLuminaries := v } }
  | .setOrbPersonal v => { c with orbs := { c.orbs with gOrbPersonal := v } }
  | .setOrbSocial v => { c with orbs := { c.orbs with gOrbSocial := v } }
  | .setOrbOuter v => { c with orbs := { c.orbs with gOrbOuter := v } }
  | .setOrbPoints v => { c with orbs := { c.orbs with gOrbPoints := v } }
  | .setUseASC b => { c with use := { c.use with gUseASC := b } }
  | .setUseMC b => { c with use := { c.use with gUseMC := b } }
  | .setUseNode b => { c with use := { c.use with gUseNode := b } }
  | .setUseChiron b => { c with use := { c.use with gUseChiron := b } }
  | .setUseLilith b => { c with use := { c.use with gUseLilith := b } }

/-- The default catalog as the specification's table lists it: label, angle, base
orb, default enabled. -/
def specDefaultCatalog : List (String × ℚ × ℚ × Bool) :=
  [ ("Conjunction", 0, 6, true), ("Opposition", 180, 5, true), ("Trine", 120, 5, true),
    ("Square", 90, 5, true), ("Sextile", 60, 4, true), ("Semisextile", 30, 22 / 10, false),
    ("Semisquare", 45, 22 / 10, false), ("Sesquiquadrate", 135, 22 / 10, false),
    ("Quintile", 72, 18 / 10, false), ("Biquintile", 144, 18 / 10, false),
    ("Quincunx", 150, 25 / 10, true) ]

/-- The default orb multipliers as the specification lists them: global 1.00,
luminaries 1.60, personal 1.25, social 1.10, outer 0.95, points 0.90. -/
def specDefaultOrbs : OrbSettings :=
  { gOrbGlobal := 100 / 100, gOrbLuminaries := 160 / 100, gOrbPersonal := 125 / 100,
    gOrbSocial := 110 / 100, gOrbOuter := 95 / 100, gOrbPoints := 90 / 100 }

/-! ## The Compute handler -/

/-- The library functions and external services that the Compute handler calls;
they are parameters of the model. `stoi` and `stod` are the C++ standard library
conversions (`none` when they throw), `LocalToUTC` is the time-zone conversion of
`ui_main.cpp:320-350` over the `date` library (`none` when it returns false), the
remaining fields are the Swiss Ephemeris: `swe_calc_ut jd ipl` is `none` on a negative
return code, `serr jd` is the message it then leaves, `swe_houses_ex` is `none` on
the return code -1. -/
structure Services where
  stoi : String → Option Int
  stod : String → Option ℚ
  LocalToUTC : String → Int → Int → Int → Int → Int → Int → Option (Int × Int × Int × ℚ)
  swe_julday : Int → Int → Int → ℚ → ℚ
  swe_calc_ut : ℚ → Nat → Option (Fin 6 → ℚ)
  serr : ℚ → String
  swe_houses_ex : ℚ → ℚ → ℚ → Char → Option Houses

/-- The call `s.substr(pos, n)` of `std::string`, for `pos` within the string. -/
def substr (s : String) (pos n : Nat) : String := String.mk ((s.toList.drop pos).take n)

/-- The call `s.substr(pos)` of `std::string`, for `pos` within the string. -/
def substrFrom (s : String) (pos : Nat) : String := String.mk (s.toList.drop pos)

/-- Source: `static bool parseUtcDateTime(...)`, `ui_main.cpp:222-231`. The result is
`none` for `false` (also when a conversion throws) and the four outputs for
`true`. -/
def parseUtcDateTime (svc : Services) (s : String) : Option (Int × Int × Int × ℚ) :=
  if s.length < 16 then none
  else
    match svc.stoi (substr s 0 4), svc.stoi (substr s 5 2), svc.stoi (substr s 8 2),
        svc.stoi (substr s 11 2), svc.stoi (substr s 14 2) with
    | some Y, some M, some D, some h, some m =>
      match (if s.length ≥ 19 then svc.stod (substrFrom s 17) else some 0) with
      | some sec => some (Y, M, D, (h : ℚ) + (m : ℚ) / 60 + sec / 3600)
      | none => none
    | _, _, _, _, _ => none

/-- The state that the Compute handler reads and writes: the locals of `wWinMain`
(`ui_main.cpp:385-394`) and the two globals `gInputIsLocal`, `gSelectedTzid`. -/
structure UiState where
  ts : String
  lat : ℚ
  lon : ℚ
  houseIdx : Int
  hsys : Char
  hasResult : Bool
  error : String
  outBodies : List Body
  outH : Houses
  gInputIsLocal : Bool
  gSelectedTzid : String

/-- The split of decimal hours into `hh`, `mm`, `ss`, `ui_main.cpp:469-471`; the casts
to `int` round toward zero. -/
def splitHour (hourDec : ℚ) : Int × Int × Int :=
  let hh := truncQ hourDec
  let mm := truncQ ((hourDec - hh) * 60 + 1 / 1000000)
  let ss := truncQ ((hourDec - hh - (mm : ℚ) / 60) * 3600 + 1 / 2)
  (hh, mm, ss)

/-- The constructor of `AstrologyChart` followed by `compute()`, `ui_main.cpp:238-272`:
the Julian day, then `computePlanets` and `computeHouses`, either of which may
throw. -/
def chartCompute (svc : Services) (Y M D : Int) (hour lat lon : ℚ) (hsys : Char) :
    Except String (List Body × Houses) :=
  let jd_ut := svc.swe_julday Y M D hour
  match computePlanets (svc.swe_calc_ut jd_ut) with
  | none => .error ("swe_calc_ut: " ++ svc.serr jd_ut)
  | some bodies =>
    match svc.swe_houses_ex jd_ut lat lon hsys with
    | none => .error "swe_houses_ex failed"
    | some H => .ok (bodies, H)

/-- The block of the Compute handler that prepares the UTC values,
`ui_main.cpp:460-475`: the typed values when the input is UTC, the converted ones
when it is local time, or the message of the exception thrown. -/
def prepareUtc (svc : Services) (st : UiState) (Y M D : Int) (hourDec : ℚ) :
    Except String (Int × Int × Int × ℚ) :=
  if st.gInputIsLocal then
    if st.gSelectedTzid.isEmpty then .error "No city/timezone selected."
    else
      match svc.LocalToUTC st.gSelectedTzid Y M D (splitHour hourDec).1
          (splitHour hourDec).2.1 (splitHour hourDec).2.2 with
      | none => .error "Time zone conversion failed (unknown tzid?)."
      | some r => .ok r
  else .ok (Y, M, D, hourDec)

/-- The assignment `hsys = (houseIdx == 0 ? ... )`, `ui_main.cpp:477`. -/
def hsysOf (houseIdx : Int) : Char :=
  if houseIdx = 0 then 'P' else if houseIdx = 1 then 'W' else if houseIdx = 2 then 'E' else 'K'

/-- The `try` block of the Compute handler, `ui_main.cpp:455-487`: the state when the
block is left, and the message of the exception when it is left by a `throw`. -/
def computeTry (svc : Services) (st : UiState) : UiState × Option String :=
  match parseUtcDateTime svc st.ts with
  | none => (st, some "Bad datetime. Use YYYY-MM-DD HH:MM[:SS].")
  | some (Y, M, D, hourDec) =>
    match prepareUtc svc st Y M D hourDec with
    | .error msg => (st, some msg)
    | .ok (Uy, Um, Ud, UhourDec) =>
      let st1 := { st with hsys := hsysOf st.houseIdx }
      match chartCompute svc Uy Um Ud UhourDec st1.lat st1.lon st1.hsys with
      | .error msg => (st1, some msg)
      | .ok (bodies, H) =>
        ({ st1 with outBodies := bodies, outH := H, hasResult := true, error := "" }, none)

/-- The Compute handler, `ui_main.cpp:454-489`: the `try` block and the `catch`, which
stores the message and clears `hasResult`. -/
def computeHandler (svc : Services) (st : UiState) : UiState :=
  match computeTry svc st with
  | (st1, none) => st1
  | (st1, some msg) => { st1 with error := msg, hasResult := false }

/-- Sample services: every conversion throws, the time-zone conversion fails, the
ephemeris is `sampleEphemeris`. -/
def sampleServices : Services :=
  { stoi := fun _ => none, stod := fun _ => none,
    LocalToUTC := fun _ _ _ _ _ _ _ => none, swe_julday := fun _ _ _ _ => 0,
    swe_calc_ut := fun _ => sampleEphemeris, serr := fun _ => "",
    swe_houses_ex := fun _ _ _ _ => some sampleHouses }

/-- A state in which a chart is displayed and the datetime field holds a date
without a time. -/
def displayedState : UiState :=
  { ts := "1996-02-12", lat := 0, lon := 0, houseIdx := 0, hsys := 'P', hasResult := true,
    error := "", outBodies := sampleBodies, outH := sampleHouses, gInputIsLocal := true,
    gSelectedTzid := "UTC" }

/-! ## Standard library conversions, the second parser, and formatting helpers -/

/-- The C classification `isspace` in the C locale: space, and the control
characters 9 to 13. -/
def isspace (c : Char) : Bool := c.toNat = 32 || (9 ≤ c.toNat && c.toNat ≤ 13)

/-- The C classification `isdigit`: the characters 48 to 57. -/
def isdigit (c : Char) : Bool := 48 ≤ c.toNat && c.toNat ≤ 57

/-- The value of a list of decimal digits, most significant first. -/
def decOf (ds : List Char) : Nat := ds.foldl (fun a c => 10 * a + (c.toNat - 48)) 0

/-- A model of `std::stoi` of the C++ standard library in base 10: leading white
space is skipped, one sign is accepted, the longest run of decimal digits is
read and whatever follows is ignored; `none` stands for the exception thrown
when there is no digit (`std::invalid_argument`) or the value does not fit the
32-bit `int` (`std::out_of_range`). -/
def std_stoi (s : String) : Option Int :=
  let cs := s.toList.dropWhile isspace
  let neg : Bool := cs.head? == some '-'
  let cs :=
    match cs with
    | c :: r => if c = '-' ∨ c = '+' then r else c :: r
    | [] => []
  let ds := cs.takeWhile isdigit
  if ds = [] then none
  else
    let v : Int := if neg then -(decOf ds : Int) else (decOf ds : Int)
    if -2147483648 ≤ v ∧ v ≤ 2147483647 then some v else none

/-- A stand-in for `std::stod` that reads a non-empty string of decimal digits and
throws on every other string; it agrees with `std::stod` on the strings of
digits. -/
def digitStod (s : String) : Option ℚ :=
  if s.toList ≠ [] ∧ s.toList.all isdigit = true then some (decOf s.toList : ℚ) else none

/-- What the parser needs from the two conversions on the fields of a datetime:
`stoi` reads a non-empty string of at most four decimal digits as its decimal
value, and `stod` reads a string of two decimal digits as its decimal value. Both
`std::stoi` and `std::stod` do. -/
def ReadsDigits (svc : Services) : Prop :=
  (∀ ds : List Char, ds ≠ [] → ds.length ≤ 4 → (∀ c ∈ ds, isdigit c = true) →
      svc.stoi (String.mk ds) = some (decOf ds : Int)) ∧
  (∀ ds : List Char, ds.length = 2 → (∀ c ∈ ds, isdigit c = true) →
      svc.stod (String.mk ds) = some (decOf ds : ℚ))

/-- Services whose `stoi` is `std_stoi`, whose `stod` is `digitStod`, whose time-zone
conversion returns its input unchanged, and whose ephemeris is
`sampleEphemeris`. -/
def stdServices : Services :=
  { stoi := std_stoi, stod := digitStod,
    LocalToUTC := fun _ Y M D hh mm ss => some (Y, M, D, (hh : ℚ) + (mm : ℚ) / 60 + (ss : ℚ) / 3600),
    swe_julday := fun _ _ _ _ => 0, swe_calc_ut := fun _ => sampleEphemeris,
    serr := fun _ => "", swe_houses_ex := fun _ _ _ _ => some sampleHouses }

/-- Source: `static bool parseUtcDateTime(...)` of `Astrology.cpp:67-88`: the guard is
19 characters, and the time fields are converted before the date fields. The
function of `src/Main.cpp:62-77` is the one of `ui_main.cpp`, `parseUtcDateTime`. -/
def parseUtcDateTimeAstrology (svc : Services) (s : String) : Option (Int × Int × Int × ℚ) :=
  if s.length < 19 then none
  else
    match svc.stoi (substr s 11 2), svc.stoi (substr s 14 2), svc.stod (substrFrom s 17) with
    | some h, some m, some sec =>
      match svc.stoi (substr s 0 4), svc.stoi (substr s 5 2), svc.stoi (substr s 8 2) with
      | some year, some month, some day =>
        some (year, month, day, (h : ℚ) + (m : ℚ) / 60 + sec / 3600)
      | _, _, _ => none
    | _, _, _ => none

/-- The string `YYYY-MM-DD HH:MM:SS` with the given characters in the fields. -/
def datetime19 (Y Mo D H Mi S : List Char) : String :=
  String.mk (Y ++ ['-'] ++ Mo ++ ['-'] ++ D ++ [' '] ++ H ++ [':'] ++ Mi ++ [':'] ++ S)

/-- The string `YYYY-MM-DD HH:MM` with the given characters in the fields. -/
def datetime16 (Y Mo D H Mi : List Char) : String :=
  String.mk (Y ++ ['-'] ++ Mo ++ ['-'] ++ D ++ [' '] ++ H ++ [':'] ++ Mi)

/-- Source: `struct DMS`, `ui_main.cpp:41`. -/
structure DMS where
  deg : Int
  min : Int
  sec : ℚ
  deriving DecidableEq

/-- Source: `static DMS toDMS(double degrees)`, `ui_main.cpp:42`, `src/Main.cpp:35-42`,
`Astrology.cpp:39-46`; `floor` returns a `double`, the casts to `int` round toward
zero. -/
def toDMS (degrees : ℚ) : DMS :=
  let d : ℚ := (⌊degrees⌋ : ℚ)
  let mfull : ℚ := (degrees - d) * 60
  let m : ℚ := (⌊mfull⌋ : ℚ)
  let s : ℚ := (mfull - m) * 60
  ⟨truncQ d, truncQ m, s⟩

/-- Source: `SIGN_NAMES`, `ui_main.cpp:43`. -/
def SIGN_NAMES : List String :=
  ["Aries", "Taurus", "Gemini", "Cancer", "Leo", "Virgo", "Libra", "Scorpio", "Sagittarius",
    "Capricorn", "Aquarius", "Pisces"]

/-- The values that `fmtLongitude` (`ui_main.cpp:213-221`, `src/Main.cpp:49-60`) computes
before it formats them: the sign index `(int)(lon / 30.0) % 12` of the normalized
longitude, the value `fmod(lon, 30.0)` within the sign, and its `toDMS`. -/
def fmtLongitudeParts (lon : ℚ) : Int × ℚ × DMS :=
  let lon := norm360 lon
  let signIdx : Int := Int.tmod (truncQ (lon / 30)) 12
  let within := fmodf lon 30
  (signIdx, within, toDMS within)

/-! ## The states reachable in the user interface -/

/-- The input state at program start, `ui_main.cpp:385-394` and `ui_main.cpp:210-211`. -/
def initialUiState : UiState :=
  { ts := "1996-02-12 16:20:00", lat := 5379648 / 100000, lon := -154785 / 100000,
    houseIdx := 0, hsys := 'P', hasResult := false, error := "", outBodies := [],
    outH := ⟨fun _ => 0, fun _ => 0⟩, gInputIsLocal := true, gSelectedTzid := "UTC" }

/-- One interaction with the input widgets of `ui_main.cpp:424-489`: an edit of the
datetime text, of the local-time checkbox, the selection of a city (which fills
in latitude, longitude and time zone), an edit of latitude or longitude, of the
house system, or a press of the Compute button. -/
inductive UiEvent where
  | setTs (s : String)
  | setInputIsLocal (b : Bool)
  | selectCity (lat lon : ℚ) (tzid : String)
  | setLat (v : ℚ)
  | setLon (v : ℚ)
  | setHouseIdx (i : Int)
  | compute

/-- The effect of one interaction on the state. -/
def uiStep (svc : Services) (st : UiState) : UiEvent → UiState
  | .setTs s => { st with ts := s }
  | .setInputIsLocal b => { st with gInputIsLocal := b }
  | .selectCity lat lon tzid =>
    { st with lat := lat, lon := lon, gSelectedTzid := if tzid.isEmpty then "UTC" else tzid }
  | .setLat v => { st with lat := v }
  | .setLon v => { st with lon := v }
  | .setHouseIdx i => { st with houseIdx := i }
  | .compute => computeHandler svc st

/-- The orb multipliers lie in the ranges of the sliders of `ui_main.cpp:527-532`. -/
def InSliderRange (g : OrbSettings) : Prop :=
  (1 / 2 ≤ g.gOrbGlobal ∧ g.gOrbGlobal ≤ 2) ∧
  (3 / 5 ≤ g.gOrbLuminaries ∧ g.gOrbLuminaries ≤ 5 / 2) ∧
  (3 / 5 ≤ g.gOrbPersonal ∧ g.gOrbPersonal ≤ 2) ∧
  (3 / 5 ≤ g.gOrbSocial ∧ g.gOrbSocial ≤ 2) ∧
  (1 / 2 ≤ g.gOrbOuter ∧ g.gOrbOuter ≤ 3 / 2) ∧
  (1 / 2 ≤ g.gOrbPoints ∧ g.gOrbPoints ≤ 3 / 2)

/-- The catalog has the angles and base orbs of the initial catalog, entry by
entry; labels, colours, widths and enabled flags are free. The panel of
`ui_main.cpp:495-524` edits only the enabled flags and the colours. -/
def HasDefaultAngles (cat : List AspectSetting) : Prop :=
  cat.map (fun A => (A.angle, A.base_orb)) = gAspects.map (fun A => (A.angle, A.base_orb))

/-- An ephemeris whose longitude for the body number `ipl` is `10 * ipl` degrees. -/
def nodeEphemeris : Nat → Option (Fin 6 → ℚ) :=
  fun ipl => some (fun i => if i = 0 then 10 * (ipl : ℚ) else 0)

/-- The thirteen bodies that `computePlanets` produces on `nodeEphemeris`: the True
Node is at 110 degrees, Chiron at 150, Lilith at 120. -/
def nodeBodies : List Body :=
  [ ⟨"Sun", 0, 0, 0, false⟩, ⟨"Moon", 10, 0, 0, false⟩, ⟨"Mercury", 20, 0, 0, false⟩,
    ⟨"Venus", 30, 0, 0, false⟩, ⟨"Mars", 40, 0, 0, false⟩, ⟨"Jupiter", 50, 0, 0, false⟩,
    ⟨"Saturn", 60, 0, 0, false⟩, ⟨"Uranus", 70, 0, 0, false⟩, ⟨"Neptune", 80, 0, 0, false⟩,
    ⟨"Pluto", 90, 0, 0, false⟩, ⟨"True Node", 110, 0, 0, false⟩, ⟨"Chiron", 150, 0, 0, false⟩,
    ⟨"Lilith", 120, 0, 0, false⟩ ]

/-- The ten names that `orb_weight_for` treats as luminaries and planets. -/
def planetNames : List String :=
  ["Sun", "Moon", "Mercury", "Venus", "Mars", "Jupiter", "Saturn", "Uranus", "Neptune", "Pluto"]

/-! ## The rounding of `norm360` in double arithmetic -/

/-- Rounding of a rational to the nearest integer, ties to the even integer. -/
def roundHalfEven (r : ℚ) : ℤ :=
  let f := ⌊r⌋
  let d := r - (f : ℚ)
  if d < 1 / 2 then f else if 1 / 2 < d then f + 1 else if f % 2 = 0 then f else f + 1

/-- The IEEE 754 binary64 rounding to nearest, ties to even, of a rational in the
normal range of `double`: with `2 ^ e ≤ |q| < 2 ^ (e + 1)` the result is the multiple
of `2 ^ (e - 52)` nearest to `q`. -/
def roundDouble (q : ℚ) : ℚ :=
  if q = 0 then 0
  else
    let e := Int.log 2 |q|
    let ulp : ℚ := (2 : ℚ) ^ (e - 52)
    (roundHalfEven (q / ulp) : ℚ) * ulp

/-- Source: `static inline double norm360(double x)`, `ui_main.cpp:40`, `src/Main.cpp:33`,
`Astrology.cpp:32-37`, on an argument that is a `double`, with the rounding of double
arithmetic: `fmod` is exact, the comparison is exact, and `y += 360.0` rounds the sum
to the nearest `double`. -/
def norm360_double (x : ℚ) : ℚ :=
  let y := fmodf x 360
  if y < 0 then roundDouble (y + 360) else y

/-! ## Lemmas on the angular helpers -/

theorem fmodf_360_nonneg (x : ℚ) (hx : 0 ≤ x) :
    ∃ k : ℤ, fmodf x 360 = x - 360 * (k : ℚ) ∧ 0 ≤ fmodf x 360 ∧ fmodf x 360 < 360 := by
  have hq : 0 ≤ x / 360 := by positivity
  have hx' : x = 360 * (x / 360) := by ring
  have h1 := Int.floor_le (x / 360)
  have h2 := Int.lt_floor_add_one (x / 360)
  refine ⟨⌊x / 360⌋, ?_, ?_, ?_⟩ <;> simp only [fmodf, truncQ, if_pos hq] <;> linarith

theorem fmodf_360_neg (x : ℚ) (hx : x < 0) :
    ∃ k : ℤ, fmodf x 360 = x - 360 * (k : ℚ) ∧ -360 < fmodf x 360 ∧ fmodf x 360 ≤ 0 := by
  have hq : ¬ (0 ≤ x / 360) := by
    have : x / 360 < 0 := by apply div_neg_of_neg_of_pos hx; norm_num
    linarith
  have hx' : x = 360 * (x / 360) := by ring
  have h1 := Int.le_ceil (x / 360)
  have h2 := Int.ceil_lt_add_one (x / 360)
  refine ⟨⌈x / 360⌉, ?_, ?_, ?_⟩ <;> simp only [fmodf, truncQ, if_neg hq] <;> linarith

/-- The value of `norm360`: in `[0, 360)` and congruent to the argument. -/
theorem norm360_spec (x : ℚ) :
    ∃ k : ℤ, norm360 x = x - 360 * (k : ℚ) ∧ 0 ≤ norm360 x ∧ norm360 x < 360 := by
  rcases le_or_lt 0 x with hx | hx
  · obtain ⟨k, hk, h0, h1⟩ := fmodf_360_nonneg x hx
    have hn : norm360 x = fmodf x 360 := by
      simp only [norm360]; rw [if_neg (not_lt.mpr h0)]
    exact ⟨k, by rw [hn, hk], by rw [hn]; exact h0, by rw [hn]; exact h1⟩
  · obtain ⟨k, hk, h0, h1⟩ := fmodf_360_neg x hx
    by_cases hy : fmodf x 360 < 0
    · have hn : norm360 x = fmodf x 360 + 360 := by
        simp only [norm360]; rw [if_pos hy]
      refine ⟨k - 1, ?_, ?_, ?_⟩
      · rw [hn, hk]; push_cast; ring
      · rw [hn]; linarith
      · rw [hn]; linarith
    · have hn : norm360 x = fmodf x 360 := by
        simp only [norm360]; rw [if_neg hy]
      exact ⟨k, by rw [hn, hk], by rw [hn]; linarith, by rw [hn]; linarith⟩

/-- A value of `[0, 360)` congruent to `x` modulo 360 is `norm360 x`. -/
theorem norm360_unique (x r : ℚ) (k : ℤ) (hr : r = x - 360 * (k : ℚ)) (h0 : 0 ≤ r)
    (h1 : r < 360) : norm360 x = r := by
  obtain ⟨j, hj, g0, g1⟩ := norm360_spec x
  have hlt : ((j - k : ℤ) : ℚ) < 1 := by push_cast; linarith
  have hgt : (-1 : ℚ) < ((j - k : ℤ) : ℚ) := by push_cast; linarith
  have hlt' : j - k < 1 := by exact_mod_cast hlt
  have hgt' : -1 < j - k := by exact_mod_cast hgt
  have hjk : j = k := by omega
  rw [hj, hr, hjk]

/-- The wheel angle in degrees is `norm360 (asc - ecl + 180)`. -/
theorem ecl_to_screen_deg_eq (ecl asc : ℚ) :
    ecl_to_screen_deg ecl asc = norm360 (asc - ecl + 180) := by
  obtain ⟨k, hk, h0, h1⟩ := norm360_spec (asc - ecl)
  have hdef : ecl_to_screen_deg ecl asc =
      if norm360 (asc - ecl) + 180 ≥ 360 then norm360 (asc - ecl) + 180 - 360
      else norm360 (asc - ecl) + 180 := rfl
  rw [hdef]
  symm
  split_ifs with h
  · exact norm360_unique _ _ (k + 1) (by rw [hk]; push_cast; ring) (by linarith) (by linarith)
  · exact norm360_unique _ _ k (by rw [hk]; ring) (by linarith) (by linarith [not_le.mp h])

/-- On a separation below 360 the `fmodf` of `shortest_sep` is the identity. -/
theorem fmodf_360_of_lt (d : ℚ) (h0 : 0 ≤ d) (h1 : d < 360) : fmodf d 360 = d := by
  obtain ⟨k, hk, g0, g1⟩ := fmodf_360_nonneg d h0
  have hlt : ((k : ℤ) : ℚ) < 1 := by linarith
  have hgt : (-1 : ℚ) < ((k : ℤ) : ℚ) := by linarith
  have hlt' : k < 1 := by exact_mod_cast hlt
  have hgt' : -1 < k := by exact_mod_cast hgt
  have hk0 : k = 0 := by omega
  rw [hk, hk0]; simp

/-- The separation is always in `[0, 180]`. -/
theorem shortest_sep_range (a b : ℚ) : 0 ≤ shortest_sep a b ∧ shortest_sep a b ≤ 180 := by
  obtain ⟨k, _, g0, g1⟩ := fmodf_360_nonneg |a - b| (abs_nonneg _)
  simp only [shortest_sep]
  split_ifs with h
  · constructor <;> linarith
  · exact ⟨g0, not_lt.mp h⟩

/-! ## Lemmas on the resolver loop -/

theorem resolveStep_update (sep scale : ℚ) (st : BestState) (i : Nat) (A : AspectSetting)
    (hc : IsCandidate sep scale A) (hlt : deltaOf sep A < st.bestDelta) :
    resolveStep sep scale st i A = ⟨some i, deltaOf sep A⟩ := by
  obtain ⟨he, hd⟩ := hc
  simp only [deltaOf] at hd hlt
  simp [resolveStep, he, hd, hlt, deltaOf]

theorem resolveStep_keep (sep scale : ℚ) (st : BestState) (i : Nat) (A : AspectSetting)
    (h : ¬ (IsCandidate sep scale A ∧ deltaOf sep A < st.bestDelta)) :
    resolveStep sep scale st i A = st := by
  unfold resolveStep
  by_cases he : A.enabled = true
  · simp only [he, Bool.not_true, Bool.false_eq_true, if_false]
    rw [if_neg]
    intro hh
    exact h ⟨⟨he, hh.1⟩, hh.2⟩
  · simp [he]

/-- The loop invariant in closed form: either the state is unchanged and no
candidate of the scanned entries beats `bestDelta`, or the state holds the first
scanned index attaining the minimal candidate `delta`, which beats `bestDelta`. -/
theorem resolveLoop_spec (sep scale : ℚ) (l : List AspectSetting) :
    ∀ (i : Nat) (st : BestState),
      (resolveLoop sep scale l i st = st ∧
        ∀ (j : Nat) (B : AspectSetting), l[j]? = some B → IsCandidate sep scale B → st.bestDelta ≤ deltaOf sep B) ∨
      (∃ k A, resolveLoop sep scale l i st = ⟨some (i + k), deltaOf sep A⟩ ∧
        l[k]? = some A ∧ IsCandidate sep scale A ∧ deltaOf sep A < st.bestDelta ∧
        (∀ (j : Nat) (B : AspectSetting), l[j]? = some B → IsCandidate sep scale B → deltaOf sep A ≤ deltaOf sep B) ∧
        (∀ (j : Nat) (B : AspectSetting), j < k → l[j]? = some B → IsCandidate sep scale B →
          deltaOf sep A < deltaOf sep B)) := by
  induction l with
  | nil =>
    intro i st
    left
    exact ⟨rfl, fun j B h => by simp at h⟩
  | cons A rest ih =>
    intro i st
    by_cases hA : IsCandidate sep scale A ∧ deltaOf sep A < st.bestDelta
    · have hstep := resolveStep_update sep scale st i A hA.1 hA.2
      right
      rcases ih (i + 1) ⟨some i, deltaOf sep A⟩ with ⟨hr, hno⟩ | ⟨k, A', hr, hk, hc, hlt, hmin, hfirst⟩
      · refine ⟨0, A, ?_, by simp, hA.1, hA.2, ?_, ?_⟩
        · simp only [resolveLoop, hstep, hr, Nat.add_zero]
        · intro j B hj hB
          cases j with
          | zero => simp at hj; subst hj; exact le_refl _
          | succ j => simp at hj; exact hno j B hj hB
        · intro j B hj; omega
      · refine ⟨k + 1, A', ?_, by simpa using hk, hc, lt_trans hlt hA.2, ?_, ?_⟩
        · simp only [resolveLoop, hstep, hr]
          congr 2; omega
        · intro j B hj hB
          cases j with
          | zero => simp at hj; subst hj; exact le_of_lt hlt
          | succ j => simp at hj; exact hmin j B hj hB
        · intro j B hjk hj hB
          cases j with
          | zero => simp at hj; subst hj; exact hlt
          | succ j => simp at hj; exact hfirst j B (by omega) hj hB
    · have hstep := resolveStep_keep sep scale st i A hA
      rcases ih (i + 1) st with ⟨hr, hno⟩ | ⟨k, A', hr, hk, hc, hlt, hmin, hfirst⟩
      · left
        refine ⟨by simp only [resolveLoop, hstep, hr], ?_⟩
        intro j B hj hB
        cases j with
        | zero =>
          simp at hj; subst hj
          by_contra hcon
          exact hA ⟨hB, not_le.mp hcon⟩
        | succ j => simp at hj; exact hno j B hj hB
      · right
        have hAge : IsCandidate sep scale A → deltaOf sep A' < deltaOf sep A := by
          intro hcA
          have : st.bestDelta ≤ deltaOf sep A := by
            by_contra hcon
            exact hA ⟨hcA, not_le.mp hcon⟩
          exact lt_of_lt_of_le hlt this
        refine ⟨k + 1, A', ?_, by simpa using hk, hc, hlt, ?_, ?_⟩
        · simp only [resolveLoop, hstep, hr]
          congr 2; omega
        · intro j B hj hB
          cases j with
          | zero => simp at hj; subst hj; exact le_of_lt (hAge hB)
          | succ j => simp at hj; exact hmin j B hj hB
        · intro j B hjk hj hB
          cases j with
          | zero => simp at hj; subst hj; exact hAge hB
          | succ j => simp at hj; exact hfirst j B (by omega) hj hB

/-- Two first-best indices of the same catalog coincide. -/
theorem IsFirstBest_unique (cat : List AspectSetting) (sep scale : ℚ) (k k' : Nat)
    (h : IsFirstBest cat sep scale k) (h' : IsFirstBest cat sep scale k') : k = k' := by
  obtain ⟨A, hA, hc, hmin, hfirst⟩ := h
  obtain ⟨A', hA', hc', hmin', hfirst'⟩ := h'
  rcases Nat.lt_trichotomy k k' with hlt | heq | hgt
  · have h1 := hfirst' k A hlt hA hc
    have h2 := hmin k' A' hA' hc'
    linarith
  · exact heq
  · have h1 := hfirst k' A' hgt hA' hc'
    have h2 := hmin' k A hA hc
    linarith

/-- What `selectBest` returns: the first index attaining the minimal candidate
`delta`, provided that `delta` is below the initial `bestDelta`. -/
theorem selectBest_eq_some_iff (cat : List AspectSetting) (sep scale : ℚ) (k : Nat) :
    selectBest cat sep scale = some k ↔
      IsFirstBest cat sep scale k ∧
        ∃ A, cat[k]? = some A ∧ deltaOf sep A < 1000000000 := by
  rcases resolveLoop_spec sep scale cat 0 ⟨none, 1000000000⟩ with
    ⟨hr, hno⟩ | ⟨k', A', hr, hk, hc, hlt, hmin, hfirst⟩
  · have hnone : selectBest cat sep scale = none := by simp only [selectBest, hr]
    rw [hnone]
    constructor
    · intro h; cases h
    · rintro ⟨⟨A, hA, hcA, _, _⟩, ⟨A2, hA2, hlt⟩⟩
      rw [hA] at hA2; cases hA2
      have := hno k A hA hcA
      simp only at this
      linarith
  · have hsome : selectBest cat sep scale = some k' := by
      simp only [selectBest, hr, Nat.zero_add]
    have hfb : IsFirstBest cat sep scale k' := ⟨A', hk, hc, hmin, hfirst⟩
    rw [hsome]
    constructor
    · intro h
      cases h
      exact ⟨hfb, A', hk, hlt⟩
    · rintro ⟨h, _⟩
      rw [IsFirstBest_unique cat sep scale k k' h hfb]

/-- When `selectBest` returns nothing, every candidate has a `delta` of at least
the initial `bestDelta`. -/
theorem selectBest_eq_none_iff (cat : List AspectSetting) (sep scale : ℚ) :
    selectBest cat sep scale = none ↔
      ∀ A ∈ cat, IsCandidate sep scale A → 1000000000 ≤ deltaOf sep A := by
  rcases resolveLoop_spec sep scale cat 0 ⟨none, 1000000000⟩ with
    ⟨hr, hno⟩ | ⟨k', A', hr, hk, hc, hlt, hmin, hfirst⟩
  · have hnone : selectBest cat sep scale = none := by simp only [selectBest, hr]
    rw [hnone]
    refine ⟨fun _ A hA hcA => ?_, fun _ => rfl⟩
    obtain ⟨j, hj⟩ := List.getElem?_of_mem hA
    exact hno j A hj hcA
  · have hsome : selectBest cat sep scale = some k' := by
      simp only [selectBest, hr, Nat.zero_add]
    rw [hsome]
    constructor
    · intro h; cases h
    · intro h
      have hmem : A' ∈ cat := (List.mem_iff_getElem?.mpr ⟨k', hk⟩)
      have := h A' hmem hc
      simp only at hlt
      linarith

/-- With angles in `[0, 180]` and a separation in `[0, 180]` every `delta` is at
most 180. -/
theorem deltaOf_le_180 (sep : ℚ) (A : AspectSetting) (hs0 : 0 ≤ sep) (hs1 : sep ≤ 180)
    (ha0 : 0 ≤ A.angle) (ha1 : A.angle ≤ 180) : deltaOf sep A ≤ 180 := by
  unfold deltaOf
  rw [abs_le]
  constructor <;> linarith

/-! ## Lemmas on point assembly -/

theorem pushBodies_eq (w : Wheel) (asc : ℚ) (l : List Body) :
    ∀ ps : List P, pushBodies w asc l ps = ps ++ l.map (fun b => mkP w asc b.lon b.name) := by
  induction l with
  | nil => intro ps; simp [pushBodies]
  | cons b rest ih => intro ps; simp [pushBodies, ih]

theorem pushNamed_spec (w : Wheel) (asc : ℚ) (outBodies : List Body) (n : String) :
    ∃ e : List P, (∀ ps, pushNamed w asc outBodies n ps = ps ++ e) ∧
      e.map P.name = (if n ∈ outBodies.map Body.name then [n] else []) ∧
      ∀ p ∈ e, p.name = n := by
  cases hf : outBodies.find? (fun b => b.name == n) with
  | none =>
    refine ⟨[], fun ps => by simp [pushNamed, hf], ?_, by simp⟩
    have hnot : n ∉ outBodies.map Body.name := by
      intro hmem
      obtain ⟨b, hb, hbn⟩ := List.mem_map.mp hmem
      have := List.find?_eq_none.mp hf b hb
      simp [hbn] at this
    simp [hnot]
  | some it =>
    have hit : it.name = n := by
      have := List.find?_some hf
      simpa using this
    have hmem : n ∈ outBodies.map Body.name :=
      List.mem_map.mpr ⟨it, List.mem_of_find?_eq_some hf, hit⟩
    refine ⟨[mkP w asc it.lon it.name], fun ps => by simp [pushNamed, hf], ?_, ?_⟩
    · simp [hmem, mkP, hit]
    · intro p hp
      simp at hp
      subst hp
      simp [mkP, hit]

/-- The shape of the assembled sequence: the bodies in input order, then the
extra points of the set flags. -/
theorem assemblePoints_shape (w : Wheel) (g : PointFlags) (outBodies : List Body)
    (outH : Houses) (h : outBodies ≠ []) :
    ∃ ps extras, assemblePoints w g outBodies outH = some (ps ++ extras) ∧
      ps.map (fun p => (p.name, p.lon)) = outBodies.map (fun b => (b.name, b.lon)) ∧
      extras.map P.name = specExtraNames g (outBodies.map Body.name) ∧
      (∀ p ∈ extras, p.name = "ASC" → p.lon = outH.ascmc SE_ASC) ∧
      (∀ p ∈ extras, p.name = "MC" → p.lon = outH.ascmc SE_MC) := by
  obtain ⟨back, hback⟩ : ∃ back, outBodies.getLast? = some back := by
    cases hl : outBodies.getLast? with
    | none => exact absurd (List.getLast?_eq_none_iff.mp hl) h
    | some b => exact ⟨b, rfl⟩
  obtain ⟨eC, hC, hCn, hCm⟩ := pushNamed_spec w (outH.ascmc SE_ASC) outBodies "Chiron"
  obtain ⟨eL, hL, hLn, hLm⟩ := pushNamed_spec w (outH.ascmc SE_ASC) outBodies "Lilith"
  refine ⟨outBodies.map (fun b => mkP w (outH.ascmc SE_ASC) b.lon b.name),
    (if g.gUseASC then [mkP w (outH.ascmc SE_ASC) (outH.ascmc SE_ASC) "ASC"] else []) ++
    (if g.gUseMC then [mkP w (outH.ascmc SE_ASC) (outH.ascmc SE_MC) "MC"] else []) ++
    (if g.gUseNode then [mkP w (outH.ascmc SE_ASC) back.lon "True Node"] else []) ++
    (if g.gUseChiron then eC else []) ++ (if g.gUseLilith then eL else []), ?_, ?_, ?_, ?_, ?_⟩
  · simp only [assemblePoints, hback, pushBodies_eq, hC, hL, List.nil_append]
    obtain ⟨a, b, c, d, e⟩ := g
    cases a <;> cases b <;> cases c <;> cases d <;> cases e <;> simp
  · simp [mkP, Function.comp_def]
  · obtain ⟨a, b, c, d, e⟩ := g
    cases a <;> cases b <;> cases c <;> cases d <;> cases e <;>
      simp [specExtraNames, hCn, hLn, mkP]
  · intro p hp hname
    simp only [List.mem_append] at hp
    rcases hp with (((hp | hp) | hp) | hp) | hp
    · split_ifs at hp <;> simp at hp
      subst hp; simp [mkP]
    · split_ifs at hp <;> simp at hp
      subst hp; simp [mkP] at hname
    · split_ifs at hp <;> simp at hp
      subst hp; simp [mkP] at hname
    · have hp' : p ∈ eC := by
        split_ifs at hp
        · exact hp
        · exact absurd hp (List.not_mem_nil _)
      have := hCm p hp'; rw [hname] at this; simp at this
    · have hp' : p ∈ eL := by
        split_ifs at hp
        · exact hp
        · exact absurd hp (List.not_mem_nil _)
      have := hLm p hp'; rw [hname] at this; simp at this
  · intro p hp hname
    simp only [List.mem_append] at hp
    rcases hp with (((hp | hp) | hp) | hp) | hp
    · split_ifs at hp <;> simp at hp
      subst hp; simp [mkP] at hname
    · split_ifs at hp <;> simp at hp
      subst hp; simp [mkP]
    · split_ifs at hp <;> simp at hp
      subst hp; simp [mkP] at hname
    · have hp' : p ∈ eC := by
        split_ifs at hp
        · exact hp
        · exact absurd hp (List.not_mem_nil _)
      have := hCm p hp'; rw [hname] at this; simp at this
    · have hp' : p ∈ eL := by
        split_ifs at hp
        · exact hp
        · exact absurd hp (List.not_mem_nil _)
      have := hLm p hp'; rw [hname] at this; simp at this

/-! ## Sample evaluations shared by the witnesses -/

theorem shortest_sep_10_190 : shortest_sep 10 190 = 180 := by
  have h : fmodf |(10 : ℚ) - 190| 360 = 180 := by
    rw [fmodf_360_of_lt] <;> norm_num [abs_of_nonpos]
  simp only [shortest_sep, h]; norm_num

theorem shortest_sep_0_0 : shortest_sep 0 0 = 0 := by
  have h : fmodf |(0 : ℚ) - 0| 360 = 0 := by
    rw [fmodf_360_of_lt] <;> norm_num
  simp only [shortest_sep, h]; norm_num

theorem scaleOf_sun_moon (a b : ℚ) :
    scaleOf gOrbInit (samplePoint a "Sun") (samplePoint b "Moon") = 8 / 5 := by
  simp [scaleOf, samplePoint, orb_weight_for, gOrbInit]

theorem bestFor_sun_moon_opposition :
    bestFor gAspects gOrbInit (samplePoint 10 "Sun") (samplePoint 190 "Moon") = some 1 := by
  have hs : sepOf (samplePoint 10 "Sun") (samplePoint 190 "Moon") = 180 := by
    simp only [sepOf, samplePoint, shortest_sep_10_190]
  simp only [bestFor, hs, scaleOf_sun_moon]
  norm_num [selectBest, gAspects, resolveLoop, resolveStep]

/-! ## The claims -/

/-- C1. Whenever the resolver loop selects a definition for a pair of points (`best`
is non-null), the selection is an entry of the catalog whose `enabled` flag is
set and whose `delta = |sep - angle|` is at most `base_orb * scale`, with `sep` the
shortest separation of the two longitudes and `scale` the smaller of the two orb
weights; a disabled definition is therefore never selected. -/
theorem selected_is_enabled_within_orb (cat : List AspectSetting) (g : OrbSettings)
    (p q : P) (k : Nat) (h : bestFor cat g p q = some k) :
    ∃ A, cat[k]? = some A ∧ A ∈ cat ∧ A.enabled = true ∧
      |shortest_sep p.lon q.lon - A.angle| ≤
        A.base_orb * min (orb_weight_for g p.name) (orb_weight_for g q.name) := by
  obtain ⟨⟨A, hA, hc, _, _⟩, _⟩ := (selectBest_eq_some_iff cat _ _ k).mp h
  exact ⟨A, hA, List.getElem?_mem hA, hc.1, hc.2⟩

theorem selected_is_enabled_within_orb_witness :
    ∃ A, gAspects[1]? = some A ∧ A ∈ gAspects ∧ A.enabled = true ∧
      |shortest_sep (samplePoint 10 "Sun").lon (samplePoint 190 "Moon").lon - A.angle| ≤
        A.base_orb * min (orb_weight_for gOrbInit (samplePoint 10 "Sun").name)
          (orb_weight_for gOrbInit (samplePoint 190 "Moon").name) :=
  selected_is_enabled_within_orb gAspects gOrbInit (samplePoint 10 "Sun")
    (samplePoint 190 "Moon") 1 bestFor_sun_moon_opposition

/-- C2. For a catalog whose angles lie in `[0, 180]`, the resolver loop selects a
definition as soon as the pair has a candidate, and the selected definition is a
candidate whose `delta` is the smallest among all candidates. -/
theorem selected_has_smallest_delta (cat : List AspectSetting) (g : OrbSettings)
    (p q : P) (hang : ∀ A ∈ cat, 0 ≤ A.angle ∧ A.angle ≤ 180) :
    ((∃ A ∈ cat, IsCandidate (sepOf p q) (scaleOf g p q) A) →
        ∃ k, bestFor cat g p q = some k) ∧
      ∀ k, bestFor cat g p q = some k →
        ∃ S, cat[k]? = some S ∧ IsCandidate (sepOf p q) (scaleOf g p q) S ∧
          ∀ A ∈ cat, A.enabled = true →
            |sepOf p q - A.angle| ≤ A.base_orb * scaleOf g p q →
            |sepOf p q - S.angle| ≤ |sepOf p q - A.angle| := by
  constructor
  · rintro ⟨A, hA, hc⟩
    cases hb : bestFor cat g p q with
    | some k => exact ⟨k, rfl⟩
    | none =>
      exfalso
      have hfar := (selectBest_eq_none_iff cat _ _).mp hb A hA hc
      obtain ⟨s0, s1⟩ := shortest_sep_range p.lon q.lon
      have := deltaOf_le_180 (sepOf p q) A s0 s1 (hang A hA).1 (hang A hA).2
      linarith
  · intro k hk
    obtain ⟨⟨S, hS, hc, hmin, _⟩, _⟩ := (selectBest_eq_some_iff cat _ _ k).mp hk
    refine ⟨S, hS, hc, ?_⟩
    intro A hA he hd
    obtain ⟨j, hj⟩ := List.getElem?_of_mem hA
    exact hmin j A hj ⟨he, hd⟩

theorem gAspects_angles : ∀ A ∈ gAspects, 0 ≤ A.angle ∧ A.angle ≤ 180 := by
  intro A hA
  simp only [gAspects, List.mem_cons, List.mem_singleton, List.not_mem_nil, or_false] at hA
  rcases hA with h | h | h | h | h | h | h | h | h | h | h <;> subst h <;> norm_num

theorem selected_has_smallest_delta_witness :
    (∀ A ∈ gAspects, 0 ≤ A.angle ∧ A.angle ≤ 180) ∧
    (((∃ A ∈ gAspects, IsCandidate (sepOf (samplePoint 10 "Sun") (samplePoint 190 "Moon"))
          (scaleOf gOrbInit (samplePoint 10 "Sun") (samplePoint 190 "Moon")) A) →
        ∃ k, bestFor gAspects gOrbInit (samplePoint 10 "Sun") (samplePoint 190 "Moon")
          = some k) ∧
      ∀ k, bestFor gAspects gOrbInit (samplePoint 10 "Sun") (samplePoint 190 "Moon")
          = some k →
        ∃ S, gAspects[k]? = some S ∧
          IsCandidate (sepOf (samplePoint 10 "Sun") (samplePoint 190 "Moon"))
            (scaleOf gOrbInit (samplePoint 10 "Sun") (samplePoint 190 "Moon")) S ∧
          ∀ A ∈ gAspects, A.enabled = true →
            |sepOf (samplePoint 10 "Sun") (samplePoint 190 "Moon") - A.angle| ≤
              A.base_orb * scaleOf gOrbInit (samplePoint 10 "Sun") (samplePoint 190 "Moon") →
            |sepOf (samplePoint 10 "Sun") (samplePoint 190 "Moon") - S.angle| ≤
              |sepOf (samplePoint 10 "Sun") (samplePoint 190 "Moon") - A.angle|) :=
  ⟨gAspects_angles,
    selected_has_smallest_delta gAspects gOrbInit (samplePoint 10 "Sun")
      (samplePoint 190 "Moon") gAspects_angles⟩

theorem sepOf_sun_moon_zero : sepOf (samplePoint 0 "Sun") (samplePoint 0 "Moon") = 0 := by
  simp only [sepOf, samplePoint, shortest_sep_0_0]

theorem shortest_sep_0_120 : shortest_sep 0 120 = 120 := by
  have h : fmodf |(0 : ℚ) - 120| 360 = 120 := by
    rw [fmodf_360_of_lt] <;> norm_num [abs_of_nonpos]
  simp only [shortest_sep, h]; norm_num

theorem tieCatalog_angles : ∀ A ∈ tieCatalog, 0 ≤ A.angle ∧ A.angle ≤ 180 := by
  intro A hA
  simp only [tieCatalog, List.mem_cons, List.mem_singleton, List.not_mem_nil, or_false] at hA
  rcases hA with h | h | h <;> subst h <;> norm_num

theorem tieCatalog_first_best :
    IsFirstBest tieCatalog (sepOf (samplePoint 0 "Sun") (samplePoint 120 "Moon"))
      (scaleOf gOrbInit (samplePoint 0 "Sun") (samplePoint 120 "Moon")) 1 := by
  have hs : sepOf (samplePoint 0 "Sun") (samplePoint 120 "Moon") = 120 := by
    simp only [sepOf, samplePoint, shortest_sep_0_120]
  rw [hs, scaleOf_sun_moon]
  refine ⟨⟨"Trine", 120, 5, 0, 1, true⟩, by simp [tieCatalog], ?_, ?_, ?_⟩
  · norm_num [IsCandidate, deltaOf]
  · intro j B _ _
    simp only [deltaOf, sub_self, abs_zero]
    exact abs_nonneg _
  · intro j B hlt hj hB
    have hj0 : j = 0 := by omega
    subst hj0
    simp [tieCatalog] at hj
    subst hj
    norm_num [deltaOf]

/-- C4. For a catalog whose angles lie in `[0, 180]`, the resolver yields no aspect
for a pair exactly when no enabled definition is within its scaled orb, or the
best candidate (the first index attaining the minimal candidate `delta`) has
angle 0 while the separation is below 0.4; in the second case nothing is drawn,
whatever other candidates there are. -/
theorem no_aspect_iff (cat : List AspectSetting) (g : OrbSettings) (p q : P)
    (hang : ∀ A ∈ cat, 0 ≤ A.angle ∧ A.angle ≤ 180) :
    aspectFor cat g p q = none ↔
      (∀ A ∈ cat, ¬ (A.enabled = true ∧
          |sepOf p q - A.angle| ≤ A.base_orb * scaleOf g p q)) ∨
      (∃ k A, IsFirstBest cat (sepOf p q) (scaleOf g p q) k ∧ cat[k]? = some A ∧
          A.angle = 0 ∧ sepOf p q < 2 / 5) := by
  obtain ⟨s0, s1⟩ := shortest_sep_range p.lon q.lon
  cases hb : selectBest cat (sepOf p q) (scaleOf g p q) with
  | none =>
    have hfar := (selectBest_eq_none_iff cat _ _).mp hb
    have hnone : aspectFor cat g p q = none := by simp only [aspectFor, drawnAspect, hb]
    rw [hnone]
    refine ⟨fun _ => Or.inl ?_, fun _ => rfl⟩
    intro A hA hc
    have h1 := hfar A hA hc
    have h2 := deltaOf_le_180 (sepOf p q) A s0 s1 (hang A hA).1 (hang A hA).2
    linarith
  | some k =>
    obtain ⟨hfb, _⟩ := (selectBest_eq_some_iff cat _ _ k).mp hb
    obtain ⟨A, hA, hc, _, _⟩ := id hfb
    have hdraw : aspectFor cat g p q =
        if A.angle = 0 ∧ sepOf p q < 2 / 5 then none else some k := by
      simp only [aspectFor, drawnAspect, hb, hA]
    rw [hdraw]
    constructor
    · intro h
      right
      by_cases hs : A.angle = 0 ∧ sepOf p q < 2 / 5
      · exact ⟨k, A, hfb, hA, hs.1, hs.2⟩
      · rw [if_neg hs] at h; cases h
    · rintro (hno | ⟨k', A', hfb', hA', ha, hs⟩)
      · exact absurd hc (hno A (List.getElem?_mem hA))
      · have hk := IsFirstBest_unique cat _ _ k' k hfb' hfb
        subst hk
        rw [hA] at hA'; cases hA'
        rw [if_pos ⟨ha, hs⟩]

theorem no_aspect_iff_witness :
    (∀ A ∈ gAspects, 0 ≤ A.angle ∧ A.angle ≤ 180) ∧
      aspectFor gAspects gOrbInit (samplePoint 0 "Sun") (samplePoint 0 "Moon") = none := by
  refine ⟨gAspects_angles,
    (no_aspect_iff gAspects gOrbInit (samplePoint 0 "Sun") (samplePoint 0 "Moon")
      gAspects_angles).mpr (Or.inr ?_)⟩
  have hsel : selectBest gAspects (sepOf (samplePoint 0 "Sun") (samplePoint 0 "Moon"))
      (scaleOf gOrbInit (samplePoint 0 "Sun") (samplePoint 0 "Moon")) = some 0 := by
    rw [sepOf_sun_moon_zero, scaleOf_sun_moon]
    norm_num [selectBest, gAspects, resolveLoop, resolveStep]
  refine ⟨0, ⟨"Conjunction", 0, 6, IM_COL32 230 230 230 190, 11 / 5, true⟩,
    ((selectBest_eq_some_iff _ _ _ 0).mp hsel).1, by simp [gAspects], rfl, ?_⟩
  rw [sepOf_sun_moon_zero]; norm_num

/-- C5. `orb_weight_for` is `global * classMultiplier`: the luminaries multiplier
for Sun and Moon, the personal one for Mercury, Venus and Mars, the social one for
Jupiter and Saturn, the outer one for Uranus, Neptune and Pluto, the points one
for ASC, MC, True Node, Mean Node, Chiron and Lilith, and 1 for every other
name. -/
theorem orb_weight_for_classes (g : OrbSettings) (n : String) :
    (n ∈ ["Sun", "Moon"] → orb_weight_for g n = g.gOrbGlobal * g.gOrbLuminaries) ∧
    (n ∈ ["Mercury", "Venus", "Mars"] → orb_weight_for g n = g.gOrbGlobal * g.gOrbPersonal) ∧
    (n ∈ ["Jupiter", "Saturn"] → orb_weight_for g n = g.gOrbGlobal * g.gOrbSocial) ∧
    (n ∈ ["Uranus", "Neptune", "Pluto"] → orb_weight_for g n = g.gOrbGlobal * g.gOrbOuter) ∧
    (n ∈ ["ASC", "MC", "True Node", "Mean Node", "Chiron", "Lilith"] →
      orb_weight_for g n = g.gOrbGlobal * g.gOrbPoints) ∧
    (n ∉ ["Sun", "Moon", "Mercury", "Venus", "Mars", "Jupiter", "Saturn", "Uranus",
        "Neptune", "Pluto", "ASC", "MC", "True Node", "Mean Node", "Chiron", "Lilith"] →
      orb_weight_for g n = g.gOrbGlobal * 1) := by
  refine ⟨?_, ?_, ?_, ?_, ?_, ?_⟩
  · intro h
    simp only [List.mem_cons, List.mem_singleton, List.not_mem_nil, or_false] at h
    rcases h with h | h <;> subst h <;> simp [orb_weight_for, mul_comm]
  · intro h
    simp only [List.mem_cons, List.mem_singleton, List.not_mem_nil, or_false] at h
    rcases h with h | h | h <;> subst h <;> simp [orb_weight_for, mul_comm]
  · intro h
    simp only [List.mem_cons, List.mem_singleton, List.not_mem_nil, or_false] at h
    rcases h with h | h <;> subst h <;> simp [orb_weight_for, mul_comm]
  · intro h
    simp only [List.mem_cons, List.mem_singleton, List.not_mem_nil, or_false] at h
    rcases h with h | h | h <;> subst h <;> simp [orb_weight_for, mul_comm]
  · intro h
    simp only [List.mem_cons, List.mem_singleton, List.not_mem_nil, or_false] at h
    rcases h with h | h | h | h | h | h <;> subst h <;> simp [orb_weight_for, mul_comm]
  · intro h
    simp only [List.mem_cons, List.mem_singleton, List.not_mem_nil, or_false, not_or] at h
    obtain ⟨h1, h2, h3, h4, h5, h6, h7, h8, h9, h10, h11, h12, h13, h14, h15, h16⟩ := h
    simp [orb_weight_for, h1, h2, h3, h4, h5, h6, h7, h8, h9, h10, h11, h12, h13, h14, h15,
      h16]

theorem orb_weight_for_classes_witness :
    orb_weight_for gOrbInit "Moon" = gOrbInit.gOrbGlobal * gOrbInit.gOrbLuminaries ∧
    orb_weight_for gOrbInit "Venus" = gOrbInit.gOrbGlobal * gOrbInit.gOrbPersonal ∧
    orb_weight_for gOrbInit "Saturn" = gOrbInit.gOrbGlobal * gOrbInit.gOrbSocial ∧
    orb_weight_for gOrbInit "Pluto" = gOrbInit.gOrbGlobal * gOrbInit.gOrbOuter ∧
    orb_weight_for gOrbInit "Mean Node" = gOrbInit.gOrbGlobal * gOrbInit.gOrbPoints ∧
    orb_weight_for gOrbInit "Body" = gOrbInit.gOrbGlobal * 1 :=
  ⟨(orb_weight_for_classes gOrbInit "Moon").1 (by decide),
    (orb_weight_for_classes gOrbInit "Venus").2.1 (by decide),
    (orb_weight_for_classes gOrbInit "Saturn").2.2.1 (by decide),
    (orb_weight_for_classes gOrbInit "Pluto").2.2.2.1 (by decide),
    (orb_weight_for_classes gOrbInit "Mean Node").2.2.2.2.1 (by decide),
    (orb_weight_for_classes gOrbInit "Body").2.2.2.2.2 (by decide)⟩

theorem sampleBodies_ne_nil : sampleBodies ≠ [] := by simp [sampleBodies]

/-- C6. For a non-empty body list and any setting of the five flags, point assembly
returns the bodies in input order, each with its name and longitude, followed by
the extra points: `ASC` (Ascendant longitude) when its flag is set, `MC`
(Midheaven longitude) when its flag is set, `True Node` when the Node flag is set,
`Chiron` when its flag is set and a body of that exact name exists, `Lilith` when
its flag is set and a body of that exact name exists, and nothing else. -/
theorem assemblePoints_layout (w : Wheel) (g : PointFlags) (outBodies : List Body)
    (outH : Houses) (h : outBodies ≠ []) :
    ∃ ps extras, assemblePoints w g outBodies outH = some (ps ++ extras) ∧
      ps.map (fun p => (p.name, p.lon)) = outBodies.map (fun b => (b.name, b.lon)) ∧
      extras.map P.name =
        (if g.gUseASC then ["ASC"] else []) ++
        (if g.gUseMC then ["MC"] else []) ++
        (if g.gUseNode then ["True Node"] else []) ++
        (if g.gUseChiron ∧ "Chiron" ∈ outBodies.map Body.name then ["Chiron"] else []) ++
        (if g.gUseLilith ∧ "Lilith" ∈ outBodies.map Body.name then ["Lilith"] else []) ∧
      (∀ p ∈ extras, p.name = "ASC" → p.lon = outH.ascmc SE_ASC) ∧
      (∀ p ∈ extras, p.name = "MC" → p.lon = outH.ascmc SE_MC) :=
  assemblePoints_shape w g outBodies outH h

theorem assemblePoints_layout_witness :
    sampleBodies ≠ [] ∧
    ∃ ps extras, assemblePoints sampleWheel gUseInit sampleBodies sampleHouses
        = some (ps ++ extras) ∧
      ps.map (fun p => (p.name, p.lon)) = sampleBodies.map (fun b => (b.name, b.lon)) ∧
      extras.map P.name =
        (if gUseInit.gUseASC then ["ASC"] else []) ++
        (if gUseInit.gUseMC then ["MC"] else []) ++
        (if gUseInit.gUseNode then ["True Node"] else []) ++
        (if gUseInit.gUseChiron ∧ "Chiron" ∈ sampleBodies.map Body.name then ["Chiron"]
          else []) ++
        (if gUseInit.gUseLilith ∧ "Lilith" ∈ sampleBodies.map Body.name then ["Lilith"]
          else []) ∧
      (∀ p ∈ extras, p.name = "ASC" → p.lon = sampleHouses.ascmc SE_ASC) ∧
      (∀ p ∈ extras, p.name = "MC" → p.lon = sampleHouses.ascmc SE_MC) :=
  ⟨sampleBodies_ne_nil,
    assemblePoints_layout sampleWheel gUseInit sampleBodies sampleHouses sampleBodies_ne_nil⟩

theorem norm360_zero : norm360 0 = 0 :=
  norm360_unique 0 0 0 (by norm_num) (le_refl _) (by norm_num)

theorem computePlanets_sample : computePlanets sampleEphemeris = some sampleBodies := by
  simp [computePlanets, computePlanetsLoop, kBodies, sampleEphemeris, bodyName, norm360_zero,
    sampleBodies]

/-- The names of the assembled points: the body names, then the extra names. -/
theorem assemblePoints_names (w : Wheel) (g : PointFlags) (outBodies : List Body)
    (outH : Houses) (h : outBodies ≠ []) :
    ∃ ps, assemblePoints w g outBodies outH = some ps ∧
      ps.map P.name = outBodies.map Body.name ++ specExtraNames g (outBodies.map Body.name) := by
  obtain ⟨ps, extras, hps, hbody, hextra, _, _⟩ := assemblePoints_shape w g outBodies outH h
  refine ⟨ps ++ extras, hps, ?_⟩
  have hn : ps.map P.name = outBodies.map Body.name := by
    have := congrArg (List.map Prod.fst) hbody
    simpa [List.map_map, Function.comp_def] using this
  rw [List.map_append, hn, hextra]

/-- C7, counterexample. On the thirteen bodies that `computePlanets` produces, whose
names are pairwise distinct, and with the five flags at their initial value
(all set), the assembled sequence has eighteen points and the names `True Node`,
`Chiron` and `Lilith` each occur twice. -/
theorem default_chart_repeats_names :
    computePlanets sampleEphemeris = some sampleBodies ∧
      (sampleBodies.map Body.name).Nodup ∧
      ∃ ps, assemblePoints sampleWheel gUseInit sampleBodies sampleHouses = some ps ∧
        ps.map P.name =
          ["Sun", "Moon", "Mercury", "Venus", "Mars", "Jupiter", "Saturn", "Uranus",
            "Neptune", "Pluto", "True Node", "Chiron", "Lilith", "ASC", "MC", "True Node",
            "Chiron", "Lilith"] ∧
        ¬ (ps.map P.name).Nodup := by
  refine ⟨computePlanets_sample, by decide, ?_⟩
  obtain ⟨ps, hps, hn⟩ :=
    assemblePoints_names sampleWheel gUseInit sampleBodies sampleHouses sampleBodies_ne_nil
  have hnames : ps.map P.name =
      ["Sun", "Moon", "Mercury", "Venus", "Mars", "Jupiter", "Saturn", "Uranus",
        "Neptune", "Pluto", "True Node", "Chiron", "Lilith", "ASC", "MC", "True Node",
        "Chiron", "Lilith"] := by
    rw [hn]; decide
  refine ⟨ps, hps, hnames, ?_⟩
  rw [hnames]; decide

theorem specExtraNames_nodup (g : PointFlags) (N : List String) :
    (specExtraNames g N).Nodup := by
  unfold specExtraNames
  split_ifs <;> decide

theorem mem_specExtraNames (g : PointFlags) (N : List String) (x : String) :
    x ∈ specExtraNames g N ↔
      (x = "ASC" ∧ g.gUseASC = true) ∨ (x = "MC" ∧ g.gUseMC = true) ∨
      (x = "True Node" ∧ g.gUseNode = true) ∨
      (x = "Chiron" ∧ g.gUseChiron = true ∧ "Chiron" ∈ N) ∨
      (x = "Lilith" ∧ g.gUseLilith = true ∧ "Lilith" ∈ N) := by
  have hite : ∀ (c : Prop) [Decidable c] (n : String),
      x ∈ (if c then [n] else []) ↔ x = n ∧ c := by
    intro c _ n
    by_cases hc : c <;> simp [hc]
  unfold specExtraNames
  simp only [List.mem_append, hite, or_assoc]

/-- C7, amended. For a non-empty body list with pairwise distinct names, the names
of the assembled points are pairwise distinct exactly when no set flag adds a
name that a body already has: no body is named `ASC` when the ASC flag is set,
none `MC` when the MC flag is set, none `True Node` when the Node flag is set,
none `Chiron` when the Chiron flag is set, none `Lilith` when the Lilith flag is
set. -/
theorem assembled_names_nodup_iff (w : Wheel) (g : PointFlags) (outBodies : List Body)
    (outH : Houses) (h : outBodies ≠ []) (hd : (outBodies.map Body.name).Nodup) :
    ∃ ps, assemblePoints w g outBodies outH = some ps ∧
      ((ps.map P.name).Nodup ↔
        (g.gUseASC = true → "ASC" ∉ outBodies.map Body.name) ∧
        (g.gUseMC = true → "MC" ∉ outBodies.map Body.name) ∧
        (g.gUseNode = true → "True Node" ∉ outBodies.map Body.name) ∧
        (g.gUseChiron = true → "Chiron" ∉ outBodies.map Body.name) ∧
        (g.gUseLilith = true → "Lilith" ∉ outBodies.map Body.name)) := by
  obtain ⟨ps, hps, hn⟩ := assemblePoints_names w g outBodies outH h
  refine ⟨ps, hps, ?_⟩
  rw [hn]
  generalize outBodies.map Body.name = N at hd
  rw [List.nodup_append]
  constructor
  · rintro ⟨_, _, hdis⟩
    have key : ∀ x, x ∈ N → x ∉ specExtraNames g N := fun x hx hx' => hdis hx hx'
    refine ⟨fun hf hN => ?_, fun hf hN => ?_, fun hf hN => ?_, fun hf hN => ?_,
      fun hf hN => ?_⟩
    · exact key _ hN ((mem_specExtraNames g N _).mpr (Or.inl ⟨rfl, hf⟩))
    · exact key _ hN ((mem_specExtraNames g N _).mpr (Or.inr (Or.inl ⟨rfl, hf⟩)))
    · exact key _ hN ((mem_specExtraNames g N _).mpr (Or.inr (Or.inr (Or.inl ⟨rfl, hf⟩))))
    · exact key _ hN
        ((mem_specExtraNames g N _).mpr (Or.inr (Or.inr (Or.inr (Or.inl ⟨rfl, hf, hN⟩)))))
    · exact key _ hN
        ((mem_specExtraNames g N _).mpr (Or.inr (Or.inr (Or.inr (Or.inr ⟨rfl, hf, hN⟩)))))
  · rintro ⟨hA, hM, hNo, hC, hL⟩
    refine ⟨hd, specExtraNames_nodup g N, ?_⟩
    intro x hx hx'
    rcases (mem_specExtraNames g N x).mp hx' with
      ⟨rfl, hf⟩ | ⟨rfl, hf⟩ | ⟨rfl, hf⟩ | ⟨rfl, hf, _⟩ | ⟨rfl, hf, _⟩
    · exact hA hf hx
    · exact hM hf hx
    · exact hNo hf hx
    · exact hC hf hx
    · exact hL hf hx

theorem assembled_names_nodup_iff_witness :
    sampleBodies ≠ [] ∧ (sampleBodies.map Body.name).Nodup ∧
    ∃ ps, assemblePoints sampleWheel ⟨true, true, false, false, false⟩ sampleBodies
        sampleHouses = some ps ∧
      ((ps.map P.name).Nodup ↔
        ((⟨true, true, false, false, false⟩ : PointFlags).gUseASC = true →
          "ASC" ∉ sampleBodies.map Body.name) ∧
        ((⟨true, true, false, false, false⟩ : PointFlags).gUseMC = true →
          "MC" ∉ sampleBodies.map Body.name) ∧
        ((⟨true, true, false, false, false⟩ : PointFlags).gUseNode = true →
          "True Node" ∉ sampleBodies.map Body.name) ∧
        ((⟨true, true, false, false, false⟩ : PointFlags).gUseChiron = true →
          "Chiron" ∉ sampleBodies.map Body.name) ∧
        ((⟨true, true, false, false, false⟩ : PointFlags).gUseLilith = true →
          "Lilith" ∉ sampleBodies.map Body.name)) :=
  ⟨sampleBodies_ne_nil, by decide,
    assembled_names_nodup_iff sampleWheel ⟨true, true, false, false, false⟩ sampleBodies
      sampleHouses sampleBodies_ne_nil (by decide)⟩

/-- C8. For all `ecl` and `asc`, the wheel angle that `ecl_to_screen_angle` computes,
in degrees before the final `deg2rad`, is `norm360 (asc - ecl + 180)`; it lies in
`[0, 360)`; and when the ecliptic longitude grows by `t` it decreases by `t`
modulo 360. The returned value is the `deg2rad` of that angle. -/
theorem ecl_to_screen_deg_spec (ecl asc : ℚ) :
    ecl_to_screen_deg ecl asc = norm360 (asc - ecl + 180) ∧
      0 ≤ ecl_to_screen_deg ecl asc ∧ ecl_to_screen_deg ecl asc < 360 ∧
      (∀ t : ℚ, ecl_to_screen_deg (ecl + t) asc = norm360 (ecl_to_screen_deg ecl asc - t)) ∧
      ∀ M_PI : ℚ, ecl_to_screen_angle M_PI ecl asc =
        deg2rad M_PI (norm360 (asc - ecl + 180)) := by
  have heq := ecl_to_screen_deg_eq ecl asc
  obtain ⟨k, hk, h0, h1⟩ := norm360_spec (asc - ecl + 180)
  refine ⟨heq, by rw [heq]; exact h0, by rw [heq]; exact h1, ?_, ?_⟩
  · intro t
    rw [ecl_to_screen_deg_eq (ecl + t) asc, heq]
    obtain ⟨j, hj, g0, g1⟩ := norm360_spec (asc - (ecl + t) + 180)
    symm
    refine norm360_unique _ _ (j - k) ?_ g0 g1
    rw [hj, hk]; push_cast; ring
  · intro M_PI
    simp only [ecl_to_screen_angle, heq]

/-- C9. For every Ascendant longitude `x`, `ecl_to_screen_angle x x` is the anchor
angle: 180 degrees before the conversion, hence `M_PI` radians, whatever `x` is. -/
theorem ecl_to_screen_angle_anchor (M_PI x : ℚ) :
    ecl_to_screen_deg x x = 180 ∧ ecl_to_screen_angle M_PI x x = M_PI := by
  have h : ecl_to_screen_deg x x = 180 := by
    rw [ecl_to_screen_deg_eq]
    exact norm360_unique _ 180 0 (by push_cast; ring) (by norm_num) (by norm_num)
  refine ⟨h, ?_⟩
  simp only [ecl_to_screen_angle, h, deg2rad]
  field_simp

/-- C10. For longitudes `a`, `b` in `[0, 360)`, `shortest_sep a b` is the smaller of
the two arcs, `min |a - b| (360 - |a - b|)`; and `shortest_sep x x = 0` for every
`x`. -/
theorem shortest_sep_min_arc (a b x : ℚ) (ha0 : 0 ≤ a) (ha1 : a < 360) (hb0 : 0 ≤ b)
    (hb1 : b < 360) :
    shortest_sep a b = min |a - b| (360 - |a - b|) ∧ shortest_sep x x = 0 := by
  constructor
  · have hd0 : 0 ≤ |a - b| := abs_nonneg _
    have hd1 : |a - b| < 360 := by
      rw [abs_lt]; constructor <;> linarith
    simp only [shortest_sep, fmodf_360_of_lt _ hd0 hd1]
    split_ifs with h
    · rw [min_eq_right]; linarith
    · rw [min_eq_left]; linarith [not_lt.mp h]
  · have h : fmodf |x - x| 360 = 0 := by
      rw [sub_self, abs_zero]
      exact fmodf_360_of_lt 0 (le_refl _) (by norm_num)
    simp only [shortest_sep, h]
    norm_num

theorem shortest_sep_min_arc_witness :
    shortest_sep 10 350 = min |(10 : ℚ) - 350| (360 - |(10 : ℚ) - 350|) ∧
      shortest_sep 725 725 = 0 :=
  shortest_sep_min_arc 10 350 725 (by norm_num) (by norm_num) (by norm_num) (by norm_num)


/-! ## Further lemmas for the scenarios -/

/-- For `a ≤ b` no more than 180 apart, the separation is `b - a`. -/
theorem shortest_sep_of_le (a b : ℚ) (hab : a ≤ b) (h180 : b - a ≤ 180) :
    shortest_sep a b = b - a := by
  have habs : |a - b| = b - a := by
    rw [abs_of_nonpos (by linarith)]; ring
  have hf : fmodf |a - b| 360 = b - a := by
    rw [habs]; exact fmodf_360_of_lt _ (by linarith) (by linarith)
  simp only [shortest_sep, hf]
  rw [if_neg (by linarith)]

/-- With the initial multipliers every orb weight lies between 0.9 and 1.6. -/
theorem orb_weight_init_bounds (n : String) :
    9 / 10 ≤ orb_weight_for gOrbInit n ∧ orb_weight_for gOrbInit n ≤ 8 / 5 := by
  unfold orb_weight_for
  split_ifs <;> norm_num [gOrbInit]

theorem scaleOf_init_bounds (p q : P) :
    9 / 10 ≤ scaleOf gOrbInit p q ∧ scaleOf gOrbInit p q ≤ 8 / 5 := by
  obtain ⟨p0, p1⟩ := orb_weight_init_bounds p.name
  obtain ⟨q0, q1⟩ := orb_weight_init_bounds q.name
  unfold scaleOf
  exact ⟨le_min p0 q0, le_trans (min_le_left _ _) p1⟩

/-- Every angle of the initial catalog is 0 or at least 30. -/
theorem gAspects_angle_cases : ∀ A ∈ gAspects, A.angle = 0 ∨ 30 ≤ A.angle := by
  intro A hA
  simp only [gAspects, List.mem_cons, List.mem_singleton, List.not_mem_nil, or_false] at hA
  rcases hA with h | h | h | h | h | h | h | h | h | h | h <;> subst h <;> norm_num

/-- With the initial catalog, a separation of at most 15 that is within the scaled
orb of the Conjunction selects the Conjunction, index 0. -/
theorem selectBest_gAspects_conjunction (sep scale : ℚ) (h0 : 0 ≤ sep) (h1 : sep ≤ 15)
    (h2 : sep ≤ 6 * scale) : selectBest gAspects sep scale = some 0 := by
  rw [selectBest_eq_some_iff]
  have hlook : gAspects[0]? =
      some ⟨"Conjunction", 0, 6, IM_COL32 230 230 230 190, 11 / 5, true⟩ := by
    simp [gAspects]
  have hd : deltaOf sep ⟨"Conjunction", 0, 6, IM_COL32 230 230 230 190, 11 / 5, true⟩ = sep := by
    simp only [deltaOf, sub_zero]; exact abs_of_nonneg h0
  refine ⟨⟨_, hlook, ⟨rfl, ?_⟩, ?_, ?_⟩, ⟨_, hlook, ?_⟩⟩
  · rw [hd]; exact h2
  · intro j B hj _
    rw [hd]
    rcases gAspects_angle_cases B (List.getElem?_mem hj) with hB | hB
    · simp only [deltaOf, hB, sub_zero]; exact le_abs_self _
    · have : sep ≤ -(sep - B.angle) := by linarith
      exact le_trans this (neg_le_abs _)
  · intro j B hj; omega
  · rw [hd]; linarith

theorem prepareUtc_msg (svc : Services) (st : UiState) (Y M D : Int) (hourDec : ℚ)
    (msg : String) (h : prepareUtc svc st Y M D hourDec = .error msg) : msg ≠ "" := by
  unfold prepareUtc at h
  split_ifs at h
  · cases h; decide
  · split at h
    · cases h; decide
    · cases h

theorem chartCompute_msg (svc : Services) (Y M D : Int) (hour lat lon : ℚ) (hsys : Char)
    (msg : String) (h : chartCompute svc Y M D hour lat lon hsys = .error msg) : msg ≠ "" := by
  simp only [chartCompute] at h
  split at h
  · cases h
    intro hcon
    have := congrArg String.length hcon
    simp only [String.length_append] at this
    have hlen : "swe_calc_ut: ".length = 13 := by decide
    have h0 : "".length = 0 := by decide
    omega
  · split at h
    · cases h; decide
    · cases h

/-- A failing `try` block leaves the chart data untouched and carries a non-empty
message. -/
theorem computeTry_fail (svc : Services) (st : UiState) (msg : String)
    (h : (computeTry svc st).2 = some msg) :
    (computeTry svc st).1.outBodies = st.outBodies ∧ (computeTry svc st).1.outH = st.outH ∧
      msg ≠ "" := by
  unfold computeTry at h ⊢
  cases h1 : parseUtcDateTime svc st.ts with
  | none =>
    simp only [h1, Option.some.injEq] at h ⊢
    subst h
    exact ⟨trivial, trivial, by decide⟩
  | some r =>
    obtain ⟨Y, M, D, hourDec⟩ := r
    cases h2 : prepareUtc svc st Y M D hourDec with
    | error m =>
      simp only [h1, h2, Option.some.injEq] at h ⊢
      subst h
      exact ⟨trivial, trivial, prepareUtc_msg svc st Y M D hourDec m h2⟩
    | ok u =>
      obtain ⟨Uy, Um, Ud, Uh⟩ := u
      cases h3 : chartCompute svc Uy Um Ud Uh st.lat st.lon (hsysOf st.houseIdx) with
      | error m =>
        simp only [h1, h2, h3, Option.some.injEq] at h ⊢
        subst h
        exact ⟨trivial, trivial, chartCompute_msg _ _ _ _ _ _ _ _ m h3⟩
      | ok r =>
        simp only [h1, h2, h3] at h
        cases h

/-! ## The claims on the angular helpers, the configuration and the scenarios -/

/-- C11. `shortest_sep` is symmetric: `shortest_sep a b = shortest_sep b a` for all `a`
and `b`, normalized or not. -/
theorem shortest_sep_symm (a b : ℚ) : shortest_sep a b = shortest_sep b a := by
  simp only [shortest_sep, abs_sub_comm a b]

/-- C12. For all `a` and `b`, also outside `[0, 360)`, `shortest_sep a b` lies in the
closed interval `[0, 180]`. -/
theorem shortest_sep_mem_0_180 (a b : ℚ) :
    0 ≤ shortest_sep a b ∧ shortest_sep a b ≤ 180 := by
  obtain ⟨k, _, g0, g1⟩ := fmodf_360_nonneg |a - b| (abs_nonneg _)
  simp only [shortest_sep]
  split_ifs with h
  · exact ⟨by linarith, by linarith⟩
  · exact ⟨g0, not_lt.mp h⟩

/-- C15. The startup configuration is the documented default: the catalog `gAspects`
lists, in the order of the specification's table, the eleven definitions with
their angle, base orb and enabled flag, and the six orb multipliers are 1.00,
1.60, 1.25, 1.10, 0.95 and 0.90. -/
theorem startup_is_documented_default :
    gAspects.map (fun A => (A.label, A.angle, A.base_orb, A.enabled)) = specDefaultCatalog ∧
      gOrbInit = specDefaultOrbs ∧
      startupConfig.aspects = gAspects ∧ startupConfig.orbs = gOrbInit := by
  refine ⟨?_, ?_, rfl, rfl⟩
  · simp only [gAspects, specDefaultCatalog, List.map_cons, List.map_nil]
    norm_num
  · simp only [gOrbInit, specDefaultOrbs]
    norm_num

/-- C16. From every configuration, in particular from every one reached from the
startup configuration by any sequence of edits, the reset yields exactly the
startup configuration: the catalog entry for entry, the six multipliers and the
five flags; hence the reset is idempotent. -/
theorem reset_restores_startup (edits : List ConfigEdit) (c : Config) :
    resetAspectDefaults (edits.foldl applyEdit startupConfig) = startupConfig ∧
      resetAspectDefaults c = startupConfig ∧
      (resetAspectDefaults c).aspects = gAspects ∧
      (resetAspectDefaults c).orbs = gOrbInit ∧
      resetAspectDefaults (resetAspectDefaults c) = resetAspectDefaults c := by
  have h : ∀ d : Config, resetAspectDefaults d = startupConfig := fun d => rfl
  exact ⟨h _, h c, by rw [h c]; rfl, by rw [h c]; rfl, by rw [h, h]⟩

/-- C17. Conjunction suppression scenario. With the initial catalog and the initial
orb multipliers, whatever the names of the two points are: a pair 0.1 degrees
apart yields no aspect (the Conjunction is selected and suppressed), and a pair
0.5 degrees apart yields the Conjunction, the catalog entry of index 0. -/
theorem conjunction_suppression_scenario (p q p2 q2 : P) (h : sepOf p q = 1 / 10)
    (h2 : sepOf p2 q2 = 1 / 2) :
    bestFor gAspects gOrbInit p q = some 0 ∧
      aspectFor gAspects gOrbInit p q = none ∧
      aspectFor gAspects gOrbInit p2 q2 = some 0 ∧
      gAspects[0]?.map AspectSetting.label = some "Conjunction" := by
  have hs := (scaleOf_init_bounds p q).1
  have hs2 := (scaleOf_init_bounds p2 q2).1
  have hb : selectBest gAspects (1 / 10) (scaleOf gOrbInit p q) = some 0 :=
    selectBest_gAspects_conjunction _ _ (by norm_num) (by norm_num) (by linarith)
  have hb2 : selectBest gAspects (1 / 2) (scaleOf gOrbInit p2 q2) = some 0 :=
    selectBest_gAspects_conjunction _ _ (by norm_num) (by norm_num) (by linarith)
  have hlook : gAspects[0]? =
      some ⟨"Conjunction", 0, 6, IM_COL32 230 230 230 190, 11 / 5, true⟩ := by
    simp [gAspects]
  refine ⟨by simp only [bestFor, h, hb], ?_, ?_, by rw [hlook]; rfl⟩
  · simp only [aspectFor, drawnAspect, h, hb, hlook]
    norm_num
  · simp only [aspectFor, drawnAspect, h2, hb2, hlook]
    norm_num

theorem conjunction_suppression_scenario_witness :
    sepOf (samplePoint 0 "Sun") (samplePoint (1 / 10) "Chiron") = 1 / 10 ∧
      sepOf (samplePoint 0 "Pluto") (samplePoint (1 / 2) "Body") = 1 / 2 ∧
      bestFor gAspects gOrbInit (samplePoint 0 "Sun") (samplePoint (1 / 10) "Chiron") = some 0 ∧
      aspectFor gAspects gOrbInit (samplePoint 0 "Sun") (samplePoint (1 / 10) "Chiron") = none ∧
      aspectFor gAspects gOrbInit (samplePoint 0 "Pluto") (samplePoint (1 / 2) "Body") = some 0 ∧
      gAspects[0]?.map AspectSetting.label = some "Conjunction" := by
  have h1 : sepOf (samplePoint 0 "Sun") (samplePoint (1 / 10) "Chiron") = 1 / 10 := by
    simp only [sepOf, samplePoint]
    rw [shortest_sep_of_le] <;> norm_num
  have h2 : sepOf (samplePoint 0 "Pluto") (samplePoint (1 / 2) "Body") = 1 / 2 := by
    simp only [sepOf, samplePoint]
    rw [shortest_sep_of_le] <;> norm_num
  exact ⟨h1, h2, conjunction_suppression_scenario _ _ _ _ h1 h2⟩

/-- C18. Scenario. With the initial catalog and multipliers, for the Sun at longitude
10 and the Moon at longitude 190 the separation is exactly 180 and the resolver
selects the Opposition, the catalog entry of index 1, with `delta` 0; the
selection is drawn. -/
theorem sun_moon_opposition_scenario (w : Wheel) (asc : ℚ) :
    shortest_sep 10 190 = 180 ∧
      sepOf (mkP w asc 10 "Sun") (mkP w asc 190 "Moon") = 180 ∧
      bestFor gAspects gOrbInit (mkP w asc 10 "Sun") (mkP w asc 190 "Moon") = some 1 ∧
      (∃ A, gAspects[1]? = some A ∧ A.label = "Opposition" ∧
        |sepOf (mkP w asc 10 "Sun") (mkP w asc 190 "Moon") - A.angle| = 0) ∧
      aspectFor gAspects gOrbInit (mkP w asc 10 "Sun") (mkP w asc 190 "Moon") = some 1 := by
  have hs : sepOf (mkP w asc 10 "Sun") (mkP w asc 190 "Moon") = 180 := by
    simp only [sepOf, mkP, shortest_sep_10_190]
  have hsc : scaleOf gOrbInit (mkP w asc 10 "Sun") (mkP w asc 190 "Moon") = 8 / 5 := by
    simp [scaleOf, mkP, orb_weight_for, gOrbInit]
  have hb : selectBest gAspects 180 (8 / 5) = some 1 := by
    norm_num [selectBest, gAspects, resolveLoop, resolveStep]
  have hlook : gAspects[1]? =
      some ⟨"Opposition", 180, 5, IM_COL32 230 190 90 175, 2, true⟩ := by
    simp [gAspects]
  refine ⟨shortest_sep_10_190, hs, by simp only [bestFor, hs, hsc, hb],
    ⟨_, hlook, rfl, by rw [hs]; norm_num⟩, ?_⟩
  simp only [aspectFor, drawnAspect, hs, hsc, hb, hlook]
  norm_num

/-- C19. Scenario. With the initial catalog and multipliers, for the Sun at longitude
0 and Mercury at longitude 28 the separation is 28, the two weights are 1.6 and
1.25 so the scale is 1.25, the allowance of the Conjunction is 7.5, and the
resolver selects no definition; the Semisextile, whose `delta` of 2 is within its
scaled orb, is disabled. -/
theorem sun_mercury_no_match_scenario (w : Wheel) (asc : ℚ) :
    sepOf (mkP w asc 0 "Sun") (mkP w asc 28 "Mercury") = 28 ∧
      orb_weight_for gOrbInit "Sun" = 8 / 5 ∧ orb_weight_for gOrbInit "Mercury" = 5 / 4 ∧
      scaleOf gOrbInit (mkP w asc 0 "Sun") (mkP w asc 28 "Mercury") = 5 / 4 ∧
      (∃ A, gAspects[0]? = some A ∧ A.label = "Conjunction" ∧
        A.base_orb * scaleOf gOrbInit (mkP w asc 0 "Sun") (mkP w asc 28 "Mercury") = 15 / 2) ∧
      (∃ A, gAspects[5]? = some A ∧ A.label = "Semisextile" ∧ A.enabled = false ∧
        |(28 : ℚ) - A.angle| ≤ A.base_orb * (5 / 4)) ∧
      bestFor gAspects gOrbInit (mkP w asc 0 "Sun") (mkP w asc 28 "Mercury") = none ∧
      aspectFor gAspects gOrbInit (mkP w asc 0 "Sun") (mkP w asc 28 "Mercury") = none := by
  have hs : sepOf (mkP w asc 0 "Sun") (mkP w asc 28 "Mercury") = 28 := by
    simp only [sepOf, mkP]
    rw [shortest_sep_of_le] <;> norm_num
  have hsun : orb_weight_for gOrbInit "Sun" = 8 / 5 := by
    simp [orb_weight_for, gOrbInit]
  have hmer : orb_weight_for gOrbInit "Mercury" = 5 / 4 := by
    simp [orb_weight_for, gOrbInit]
  have hsc : scaleOf gOrbInit (mkP w asc 0 "Sun") (mkP w asc 28 "Mercury") = 5 / 4 := by
    simp only [scaleOf, mkP, hsun, hmer]
    norm_num
  have hb : selectBest gAspects 28 (5 / 4) = none := by
    norm_num [selectBest, gAspects, resolveLoop, resolveStep]
  refine ⟨hs, hsun, hmer, hsc,
    ⟨⟨"Conjunction", 0, 6, IM_COL32 230 230 230 190, 11 / 5, true⟩, by simp [gAspects], rfl, ?_⟩,
    ⟨⟨"Semisextile", 30, 11 / 5, IM_COL32 180 180 180 120, 13 / 10, false⟩,
      by simp [gAspects], rfl, rfl, ?_⟩, by simp only [bestFor, hs, hsc, hb], ?_⟩
  · rw [hsc]; norm_num
  · norm_num [abs_of_nonpos]
  · simp only [aspectFor, drawnAspect, hs, hsc, hb]

/-- C20, counterexample. In `displayedState` a chart is displayed (`hasResult` is
true) and the datetime field holds `1996-02-12`, which is shorter than 16
characters; the Compute request fails with the message of a bad datetime, and
after it `hasResult` is false: the chart is no longer displayed. -/
theorem failed_compute_hides_chart :
    displayedState.hasResult = true ∧
      (computeTry sampleServices displayedState).2 =
        some "Bad datetime. Use YYYY-MM-DD HH:MM[:SS]." ∧
      (computeHandler sampleServices displayedState).hasResult = false ∧
      (computeHandler sampleServices displayedState).hasResult ≠ displayedState.hasResult := by
  have hp : parseUtcDateTime sampleServices displayedState.ts = none := by
    simp only [parseUtcDateTime, displayedState]
    rw [if_pos (by decide)]
  have ht : computeTry sampleServices displayedState =
      (displayedState, some "Bad datetime. Use YYYY-MM-DD HH:MM[:SS].") := by
    simp only [computeTry, hp]
  refine ⟨rfl, by rw [ht], ?_, ?_⟩
  · simp only [computeHandler, ht]
  · simp only [computeHandler, ht, displayedState]
    decide

/-- C20, amended. When a Compute request fails (the datetime does not parse, no
time zone is selected, the time-zone conversion fails, or the ephemeris throws),
the error message is set to the non-empty message of the exception, `hasResult`
becomes false, so no chart is displayed any more, and `outBodies` and `outH` keep
the values they had before the request. -/
theorem failed_compute_state (svc : Services) (st : UiState) (msg : String)
    (h : (computeTry svc st).2 = some msg) :
    (computeHandler svc st).error = msg ∧ msg ≠ "" ∧
      (computeHandler svc st).hasResult = false ∧
      (computeHandler svc st).outBodies = st.outBodies ∧
      (computeHandler svc st).outH = st.outH := by
  obtain ⟨hb, hh, hm⟩ := computeTry_fail svc st msg h
  have hc : computeHandler svc st =
      { (computeTry svc st).1 with error := msg, hasResult := false } := by
    unfold computeHandler
    rcases hct : computeTry svc st with ⟨st1, o⟩
    rw [hct] at h
    simp only at h
    subst h
    rfl
  rw [hc]
  exact ⟨rfl, hm, rfl, hb, hh⟩

theorem failed_compute_state_witness :
    (computeTry sampleServices displayedState).2 =
        some "Bad datetime. Use YYYY-MM-DD HH:MM[:SS]." ∧
      (computeHandler sampleServices displayedState).error =
        "Bad datetime. Use YYYY-MM-DD HH:MM[:SS]." ∧
      "Bad datetime. Use YYYY-MM-DD HH:MM[:SS]." ≠ "" ∧
      (computeHandler sampleServices displayedState).hasResult = false ∧
      (computeHandler sampleServices displayedState).outBodies = displayedState.outBodies ∧
      (computeHandler sampleServices displayedState).outH = displayedState.outH := by
  have hp : parseUtcDateTime sampleServices displayedState.ts = none := by
    simp only [parseUtcDateTime, displayedState]
    rw [if_pos (by decide)]
  have ht : (computeTry sampleServices displayedState).2 =
      some "Bad datetime. Use YYYY-MM-DD HH:MM[:SS]." := by
    simp only [computeTry, hp]
  exact ⟨ht, failed_compute_state sampleServices displayedState _ ht⟩

/-! ## Lemmas on truncation, `toDMS` and the parsers -/

/-- Rounding toward zero of a non-negative value between `n` and `n + 1`. -/
theorem truncQ_eq_of_range (x : ℚ) (n : Int) (h0 : 0 ≤ x) (h1 : (n : ℚ) ≤ x)
    (h2 : x < (n : ℚ) + 1) : truncQ x = n := by
  simp only [truncQ, if_pos h0]
  exact Int.floor_eq_iff.mpr ⟨h1, h2⟩

/-- Rounding toward zero leaves an integer unchanged. -/
theorem truncQ_intCast (n : Int) : truncQ (n : ℚ) = n := by
  simp only [truncQ]
  split_ifs
  · exact Int.floor_intCast n
  · exact Int.ceil_intCast n

/-- For a non-negative `x` and a positive `y`, `fmodf x y` lies in `[0, y)`. -/
theorem fmodf_nonneg_lt (x y : ℚ) (hx : 0 ≤ x) (hy : 0 < y) :
    0 ≤ fmodf x y ∧ fmodf x y < y := by
  have hq : 0 ≤ x / y := div_nonneg hx (le_of_lt hy)
  have hxy : x = y * (x / y) := by field_simp
  have h1 := Int.floor_le (x / y)
  have h2 := Int.lt_floor_add_one (x / y)
  have e : fmodf x y = y * (x / y - (⌊x / y⌋ : ℚ)) := by
    simp only [fmodf, truncQ, if_pos hq]
    rw [mul_sub, ← hxy]
  rw [e]
  constructor
  · exact mul_nonneg (le_of_lt hy) (by linarith)
  · have : y * (x / y - (⌊x / y⌋ : ℚ)) < y * 1 := by
      apply mul_lt_mul_of_pos_left _ hy
      linarith
    linarith

/-- The parts of `toDMS`: the floor of the argument, a minute in `[0, 59]`, a second
in `[0, 60)`, which add up to the argument. -/
theorem toDMS_parts (degrees : ℚ) :
    (toDMS degrees).deg = ⌊degrees⌋ ∧
      0 ≤ (toDMS degrees).min ∧ (toDMS degrees).min ≤ 59 ∧
      0 ≤ (toDMS degrees).sec ∧ (toDMS degrees).sec < 60 ∧
      ((toDMS degrees).deg : ℚ) + ((toDMS degrees).min : ℚ) / 60 + (toDMS degrees).sec / 3600
        = degrees := by
  have hd0 := Int.floor_le degrees
  have hd1 := Int.lt_floor_add_one degrees
  have hm0 := Int.floor_le ((degrees - (⌊degrees⌋ : ℚ)) * 60)
  have hm1 := Int.lt_floor_add_one ((degrees - (⌊degrees⌋ : ℚ)) * 60)
  have hdeg : (toDMS degrees).deg = ⌊degrees⌋ := by
    simp only [toDMS, truncQ_intCast]
  have hmin : (toDMS degrees).min = ⌊(degrees - (⌊degrees⌋ : ℚ)) * 60⌋ := by
    simp only [toDMS, truncQ_intCast]
  have hsec : (toDMS degrees).sec =
      ((degrees - (⌊degrees⌋ : ℚ)) * 60 - (⌊(degrees - (⌊degrees⌋ : ℚ)) * 60⌋ : ℚ)) * 60 := by
    simp only [toDMS]
  have hmge : 0 ≤ ⌊(degrees - (⌊degrees⌋ : ℚ)) * 60⌋ := by
    apply Int.floor_nonneg.mpr
    nlinarith
  have hmle : ⌊(degrees - (⌊degrees⌋ : ℚ)) * 60⌋ ≤ 59 := by
    have : ⌊(degrees - (⌊degrees⌋ : ℚ)) * 60⌋ < 60 := by
      apply Int.floor_lt.mpr
      push_cast
      nlinarith
    omega
  refine ⟨hdeg, by rw [hmin]; exact hmge, by rw [hmin]; exact hmle, ?_, ?_, ?_⟩
  · rw [hsec]; nlinarith
  · rw [hsec]; nlinarith
  · rw [hdeg, hmin, hsec]; ring

/-- Every orb weight is `gOrbGlobal` for a name that `orb_weight_for` does not list. -/
theorem orb_weight_for_unlisted (g : OrbSettings) (n : String)
    (h : n ∉ ["Sun", "Moon", "Mercury", "Venus", "Mars", "Jupiter", "Saturn", "Uranus",
        "Neptune", "Pluto", "ASC", "MC", "True Node", "Mean Node", "Chiron", "Lilith"]) :
    orb_weight_for g n = g.gOrbGlobal := by
  simp only [List.mem_cons, List.mem_singleton, List.not_mem_nil, or_false, not_or] at h
  obtain ⟨h1, h2, h3, h4, h5, h6, h7, h8, h9, h10, h11, h12, h13, h14, h15, h16⟩ := h
  simp [orb_weight_for, h1, h2, h3, h4, h5, h6, h7, h8, h9, h10, h11, h12, h13, h14, h15, h16]

/-- A value of `[0, 360)` is its own `norm360`. -/
theorem norm360_of_mem (x : ℚ) (h0 : 0 ≤ x) (h1 : x < 360) : norm360 x = x :=
  norm360_unique x x 0 (by push_cast; ring) h0 h1

/-- The loop of `computePlanets` when every ephemeris call succeeds: one body per
body number, in order. -/
theorem computePlanetsLoop_of_success (swe_calc_ut : Nat → Option (Fin 6 → ℚ))
    (xx : Nat → Fin 6 → ℚ) (h : ∀ ipl, swe_calc_ut ipl = some (xx ipl)) (l : List Nat) :
    ∀ acc : List Body, computePlanetsLoop swe_calc_ut l acc =
      some (acc ++ l.map (fun ipl =>
        ⟨bodyName ipl, norm360 (xx ipl 0), xx ipl 1, xx ipl 3, decide (xx ipl 3 < 0)⟩)) := by
  induction l with
  | nil => intro acc; simp [computePlanetsLoop]
  | cons ipl rest ih => intro acc; simp [computePlanetsLoop, h, ih]

theorem computePlanets_node : computePlanets nodeEphemeris = some nodeBodies := by
  have e : ∀ x : ℚ, 0 ≤ x → x < 360 → norm360 x = x := norm360_of_mem
  have h1 : ((1 : Fin 6) = 0) = False := eq_false (by decide)
  have h3 : ((3 : Fin 6) = 0) = False := eq_false (by decide)
  rw [computePlanets, computePlanetsLoop_of_success nodeEphemeris
    (fun ipl i => if i = 0 then 10 * (ipl : ℚ) else 0) (fun _ => rfl)]
  simp only [kBodies, nodeBodies, bodyName, List.map_cons, List.map_nil, List.nil_append, h1,
    h3, if_true, if_false, lt_irrefl, decide_False]
  norm_num
  refine ⟨?_, ?_, ?_, ?_, ?_, ?_, ?_, ?_, ?_, ?_, ?_, ?_, ?_⟩ <;> apply e <;> norm_num

/-! ## Lemmas on the conversions and the parsers -/

theorem isdigit_bounds (c : Char) (h : isdigit c = true) : 48 ≤ c.toNat ∧ c.toNat ≤ 57 := by
  simpa [isdigit] using h

theorem isspace_of_isdigit (c : Char) (h : isdigit c = true) : isspace c = false := by
  obtain ⟨h0, h1⟩ := isdigit_bounds c h
  simp only [isspace, Bool.or_eq_false_iff, decide_eq_false_iff_not, Bool.and_eq_false_iff]
  omega

theorem not_sign_of_isdigit (c : Char) (h : isdigit c = true) :
    ¬ (c = '-' ∨ c = '+') ∧ (some c == some '-') = false := by
  have hm : c ≠ '-' := by
    intro e; subst e; exact absurd h (by decide)
  have hp : c ≠ '+' := by
    intro e; subst e; exact absurd h (by decide)
  refine ⟨by simp [hm, hp], ?_⟩
  simp [hm]

theorem takeWhile_isdigit_self (ds : List Char) (h : ∀ c ∈ ds, isdigit c = true) :
    ds.takeWhile isdigit = ds := by
  induction ds with
  | nil => rfl
  | cons c r ih =>
    have hc := h c (List.mem_cons_self c r)
    simp only [List.takeWhile_cons, hc, if_true]
    rw [ih (fun x hx => h x (List.mem_cons_of_mem c hx))]

/-- The value of at most four decimal digits is below 10000. -/
theorem decOf_lt (ds : List Char) (hlen : ds.length ≤ 4) (h : ∀ c ∈ ds, isdigit c = true) :
    decOf ds < 10000 := by
  have key : ∀ (l : List Char) (acc : Nat), (∀ c ∈ l, isdigit c = true) →
      l.foldl (fun a c => 10 * a + (c.toNat - 48)) acc < (acc + 1) * 10 ^ l.length := by
    intro l
    induction l with
    | nil => intro acc _; simp
    | cons c r ih =>
      intro acc hl
      obtain ⟨h0, h1⟩ := isdigit_bounds c (hl c (List.mem_cons_self c r))
      have := ih (10 * acc + (c.toNat - 48)) (fun x hx => hl x (List.mem_cons_of_mem c hx))
      simp only [List.foldl_cons, List.length_cons]
      calc List.foldl (fun a c => 10 * a + (c.toNat - 48)) (10 * acc + (c.toNat - 48)) r
          < (10 * acc + (c.toNat - 48) + 1) * 10 ^ r.length := this
        _ ≤ ((acc + 1) * 10) * 10 ^ r.length := by
            apply Nat.mul_le_mul_right
            omega
        _ = (acc + 1) * 10 ^ (r.length + 1) := by ring
  have hk := key ds 0 h
  have hp : 10 ^ ds.length ≤ 10 ^ 4 := Nat.pow_le_pow_right (by norm_num) hlen
  simp only [decOf]
  calc List.foldl (fun a c => 10 * a + (c.toNat - 48)) 0 ds < (0 + 1) * 10 ^ ds.length := hk
    _ ≤ 10000 := by simpa using hp

/-- The model `std_stoi` reads a non-empty string of at most four decimal digits as
its decimal value. -/
theorem std_stoi_digits (ds : List Char) (hne : ds ≠ []) (hlen : ds.length ≤ 4)
    (h : ∀ c ∈ ds, isdigit c = true) : std_stoi (String.mk ds) = some (decOf ds : Int) := by
  obtain ⟨c, r, rfl⟩ := List.exists_cons_of_ne_nil hne
  have hc := h c (List.mem_cons_self c r)
  have hsp := isspace_of_isdigit c hc
  obtain ⟨hsign, hneg⟩ := not_sign_of_isdigit c hc
  have hdrop : (c :: r).dropWhile isspace = c :: r := by
    simp [List.dropWhile_cons, hsp]
  have htake := takeWhile_isdigit_self (c :: r) h
  have hlt := decOf_lt (c :: r) hlen h
  have htl : (String.mk (c :: r)).toList = c :: r := rfl
  simp only [std_stoi, htl, hdrop, List.head?_cons, hneg, if_neg hsign, htake, reduceCtorEq,
    if_false, Bool.false_eq_true]
  rw [if_pos]
  constructor <;> omega

theorem stdServices_readsDigits : ReadsDigits stdServices := by
  constructor
  · intro ds hne hlen h
    exact std_stoi_digits ds hne hlen h
  · intro ds hlen h
    have hne : ds ≠ [] := by
      intro e; rw [e] at hlen; cases hlen
    have hall : ds.all isdigit = true := List.all_eq_true.mpr h
    simp only [stdServices, digitStod]
    rw [if_pos ⟨hne, hall⟩]
    rfl

theorem list_length_four (l : List Char) (h : l.length = 4) : ∃ a b c d, l = [a, b, c, d] := by
  match l, h with
  | [a, b, c, d], _ => exact ⟨a, b, c, d, rfl⟩

theorem list_length_two (l : List Char) (h : l.length = 2) : ∃ a b, l = [a, b] := by
  match l, h with
  | [a, b], _ => exact ⟨a, b, rfl⟩

/-- Both parsers accept a string `YYYY-MM-DD HH:MM:SS` of digits and return the
decimal values of its fields. -/
theorem parse_datetime19 (svc : Services) (hrd : ReadsDigits svc) (Y Mo D H Mi S : List Char)
    (lY : Y.length = 4) (lMo : Mo.length = 2) (lD : D.length = 2) (lH : H.length = 2)
    (lMi : Mi.length = 2) (lS : S.length = 2)
    (dY : ∀ c ∈ Y, isdigit c = true) (dMo : ∀ c ∈ Mo, isdigit c = true)
    (dD : ∀ c ∈ D, isdigit c = true) (dH : ∀ c ∈ H, isdigit c = true)
    (dMi : ∀ c ∈ Mi, isdigit c = true) (dS : ∀ c ∈ S, isdigit c = true) :
    parseUtcDateTime svc (datetime19 Y Mo D H Mi S) =
        some ((decOf Y : Int), (decOf Mo : Int), (decOf D : Int),
          (decOf H : ℚ) + (decOf Mi : ℚ) / 60 + (decOf S : ℚ) / 3600) ∧
      parseUtcDateTimeAstrology svc (datetime19 Y Mo D H Mi S) =
        some ((decOf Y : Int), (decOf Mo : Int), (decOf D : Int),
          (decOf H : ℚ) + (decOf Mi : ℚ) / 60 + (decOf S : ℚ) / 3600) := by
  have hY := hrd.1 Y (by intro e; rw [e] at lY; cases lY) (by omega) dY
  have hMo := hrd.1 Mo (by intro e; rw [e] at lMo; cases lMo) (by omega) dMo
  have hD := hrd.1 D (by intro e; rw [e] at lD; cases lD) (by omega) dD
  have hH := hrd.1 H (by intro e; rw [e] at lH; cases lH) (by omega) dH
  have hMi := hrd.1 Mi (by intro e; rw [e] at lMi; cases lMi) (by omega) dMi
  have hS := hrd.2 S lS dS
  obtain ⟨y1, y2, y3, y4, rfl⟩ := list_length_four Y lY
  obtain ⟨m1, m2, rfl⟩ := list_length_two Mo lMo
  obtain ⟨d1, d2, rfl⟩ := list_length_two D lD
  obtain ⟨h1, h2, rfl⟩ := list_length_two H lH
  obtain ⟨i1, i2, rfl⟩ := list_length_two Mi lMi
  obtain ⟨s1, s2, rfl⟩ := list_length_two S lS
  constructor
  · simp [parseUtcDateTime, datetime19, substr, substrFrom, String.length, hY, hMo, hD, hH,
      hMi, hS]
  · simp [parseUtcDateTimeAstrology, datetime19, substr, substrFrom, String.length, hY, hMo,
      hD, hH, hMi, hS]

/-- The parser of `ui_main.cpp` and `Main.cpp` accepts a string `YYYY-MM-DD HH:MM` of
digits, with the seconds taken as 0. -/
theorem parse_datetime16 (svc : Services) (hrd : ReadsDigits svc) (Y Mo D H Mi : List Char)
    (lY : Y.length = 4) (lMo : Mo.length = 2) (lD : D.length = 2) (lH : H.length = 2)
    (lMi : Mi.length = 2)
    (dY : ∀ c ∈ Y, isdigit c = true) (dMo : ∀ c ∈ Mo, isdigit c = true)
    (dD : ∀ c ∈ D, isdigit c = true) (dH : ∀ c ∈ H, isdigit c = true)
    (dMi : ∀ c ∈ Mi, isdigit c = true) :
    parseUtcDateTime svc (datetime16 Y Mo D H Mi) =
        some ((decOf Y : Int), (decOf Mo : Int), (decOf D : Int),
          (decOf H : ℚ) + (decOf Mi : ℚ) / 60 + 0 / 3600) := by
  have hY := hrd.1 Y (by intro e; rw [e] at lY; cases lY) (by omega) dY
  have hMo := hrd.1 Mo (by intro e; rw [e] at lMo; cases lMo) (by omega) dMo
  have hD := hrd.1 D (by intro e; rw [e] at lD; cases lD) (by omega) dD
  have hH := hrd.1 H (by intro e; rw [e] at lH; cases lH) (by omega) dH
  have hMi := hrd.1 Mi (by intro e; rw [e] at lMi; cases lMi) (by omega) dMi
  obtain ⟨y1, y2, y3, y4, rfl⟩ := list_length_four Y lY
  obtain ⟨m1, m2, rfl⟩ := list_length_two Mo lMo
  obtain ⟨d1, d2, rfl⟩ := list_length_two D lD
  obtain ⟨h1, h2, rfl⟩ := list_length_two H lH
  obtain ⟨i1, i2, rfl⟩ := list_length_two Mi lMi
  simp [parseUtcDateTime, datetime16, substr, substrFrom, String.length, hY, hMo, hD, hH, hMi]

theorem std_stoi_samples :
    std_stoi "1996" = some 1996 ∧ std_stoi "02" = some 2 ∧ std_stoi "12" = some 12 ∧
      std_stoi "16" = some 16 ∧ std_stoi "20" = some 20 := by
  refine ⟨?_, ?_, ?_, ?_, ?_⟩ <;> decide

/-! ## Lemmas on the slider ranges and the reachable states -/

/-- Within the slider ranges every orb weight lies between 0.25 and 5. -/
theorem orb_weight_slider_bounds (g : OrbSettings) (hg : InSliderRange g) (n : String) :
    1 / 4 ≤ orb_weight_for g n ∧ orb_weight_for g n ≤ 5 := by
  obtain ⟨⟨a0, a1⟩, ⟨b0, b1⟩, ⟨c0, c1⟩, ⟨d0, d1⟩, ⟨e0, e1⟩, ⟨f0, f1⟩⟩ := hg
  have key : ∀ x : ℚ, 1 / 2 ≤ x → x ≤ 5 / 2 →
      1 / 4 ≤ x * g.gOrbGlobal ∧ x * g.gOrbGlobal ≤ 5 := by
    intro x x0 x1
    constructor
    · nlinarith [mul_nonneg (sub_nonneg.mpr x0) (sub_nonneg.mpr a0)]
    · nlinarith [mul_nonneg (sub_nonneg.mpr x1) (sub_nonneg.mpr a1),
        mul_nonneg (sub_nonneg.mpr x1) (sub_nonneg.mpr a0)]
  unfold orb_weight_for
  split_ifs
  · exact key _ (by linarith) b1
  · exact key _ (by linarith) (by linarith)
  · exact key _ (by linarith) (by linarith)
  · exact key _ e0 (by linarith)
  · exact key _ f0 (by linarith)
  · constructor <;> linarith

theorem scaleOf_slider_bounds (g : OrbSettings) (hg : InSliderRange g) (p q : P) :
    1 / 4 ≤ scaleOf g p q ∧ scaleOf g p q ≤ 5 := by
  obtain ⟨p0, p1⟩ := orb_weight_slider_bounds g hg p.name
  obtain ⟨q0, q1⟩ := orb_weight_slider_bounds g hg q.name
  unfold scaleOf
  exact ⟨le_min p0 q0, le_trans (min_le_left _ _) p1⟩

/-- In a catalog with the default angles and base orbs, an entry has angle 0, or
an angle of at least 30 with a base orb between 0 and 5. -/
theorem default_angles_cases (cat : List AspectSetting) (hcat : HasDefaultAngles cat) :
    ∀ A ∈ cat, (A.angle = 0 ∧ A.base_orb = 6) ∨
      (30 ≤ A.angle ∧ 0 ≤ A.base_orb ∧ A.base_orb ≤ 5) := by
  intro A hA
  have hmem : (A.angle, A.base_orb) ∈ cat.map (fun A => (A.angle, A.base_orb)) :=
    List.mem_map.mpr ⟨A, hA, rfl⟩
  rw [hcat] at hmem
  simp only [gAspects, List.map_cons, List.map_nil, List.mem_cons, List.mem_singleton,
    List.not_mem_nil, or_false, Prod.mk.injEq] at hmem
  rcases hmem with h | h | h | h | h | h | h | h | h | h | h <;> obtain ⟨ha, hb⟩ := h <;>
    rw [ha, hb] <;> norm_num

/-- Every edit of the configuration panel keeps the angles and base orbs of the
catalog. -/
theorem applyEdit_keeps_angles (c : Config) (e : ConfigEdit)
    (h : HasDefaultAngles c.aspects) : HasDefaultAngles (applyEdit c e).aspects := by
  have hmod : ∀ (f : AspectSetting → AspectSetting) (i : Nat) (l : List AspectSetting),
      (∀ A, (f A).angle = A.angle ∧ (f A).base_orb = A.base_orb) →
      (l.modify f i).map (fun A => (A.angle, A.base_orb)) =
        l.map (fun A => (A.angle, A.base_orb)) := by
    intro f i l hf
    induction l generalizing i with
    | nil => cases i <;> rfl
    | cons a r ih =>
      cases i with
      | zero => simp [List.modify, (hf a).1, (hf a).2]
      | succ j => simpa [List.modify] using ih j
  unfold HasDefaultAngles at h ⊢
  cases e with
  | setEnabled i b =>
    exact (hmod (fun A => { A with enabled := b }) i c.aspects (fun A => ⟨rfl, rfl⟩)).trans h
  | setColor i r g b =>
    exact (hmod (fun A => { A with color := IM_COL32 r g b ((A.color / 2 ^ 24) % 256) }) i
      c.aspects (fun A => ⟨rfl, rfl⟩)).trans h
  | _ => exact h

/-- The names of the bodies that the loop of `computePlanets` returns. -/
theorem computePlanetsLoop_names (swe_calc_ut : Nat → Option (Fin 6 → ℚ)) (l : List Nat) :
    ∀ (acc bodies : List Body), computePlanetsLoop swe_calc_ut l acc = some bodies →
      bodies.map Body.name = acc.map Body.name ++ l.map bodyName := by
  induction l with
  | nil =>
    intro acc bodies h
    simp only [computePlanetsLoop, Option.some.injEq] at h
    subst h; simp
  | cons ipl rest ih =>
    intro acc bodies h
    simp only [computePlanetsLoop] at h
    cases hc : swe_calc_ut ipl with
    | none => rw [hc] at h; cases h
    | some xx =>
      rw [hc] at h
      have := ih _ _ h
      simpa using this

/-- A successful `computePlanets` returns thirteen bodies with the thirteen names. -/
theorem computePlanets_names (swe_calc_ut : Nat → Option (Fin 6 → ℚ)) (bodies : List Body)
    (h : computePlanets swe_calc_ut = some bodies) :
    bodies.map Body.name =
        ["Sun", "Moon", "Mercury", "Venus", "Mars", "Jupiter", "Saturn", "Uranus", "Neptune",
          "Pluto", "True Node", "Chiron", "Lilith"] ∧
      bodies.length = 13 := by
  have hn := computePlanetsLoop_names swe_calc_ut kBodies [] bodies h
  have hnames : bodies.map Body.name =
      ["Sun", "Moon", "Mercury", "Venus", "Mars", "Jupiter", "Saturn", "Uranus", "Neptune",
        "Pluto", "True Node", "Chiron", "Lilith"] := by
    rw [hn]; decide
  refine ⟨hnames, ?_⟩
  have := congrArg List.length hnames
  simpa using this

/-- A `try` block that is left without an exception has set `hasResult` and stored
the result of a successful `computePlanets` in `outBodies`. -/
theorem computeTry_success (svc : Services) (st : UiState)
    (h : (computeTry svc st).2 = none) :
    (computeTry svc st).1.hasResult = true ∧
      ∃ f, computePlanets f = some (computeTry svc st).1.outBodies := by
  unfold computeTry at h ⊢
  cases h1 : parseUtcDateTime svc st.ts with
  | none => simp only [h1] at h; cases h
  | some r =>
    obtain ⟨Y, M, D, hourDec⟩ := r
    cases h2 : prepareUtc svc st Y M D hourDec with
    | error m => simp only [h1, h2] at h; cases h
    | ok u =>
      obtain ⟨Uy, Um, Ud, Uh⟩ := u
      cases h3 : chartCompute svc Uy Um Ud Uh st.lat st.lon (hsysOf st.houseIdx) with
      | error m => simp only [h1, h2, h3] at h; cases h
      | ok r =>
        obtain ⟨bodies, H⟩ := r
        simp only [h1, h2, h3, true_and]
        simp only [chartCompute] at h3
        cases h4 : computePlanets (svc.swe_calc_ut (svc.swe_julday Uy Um Ud Uh)) with
        | none => rw [h4] at h3; cases h3
        | some b =>
          rw [h4] at h3
          cases h5 : svc.swe_houses_ex (svc.swe_julday Uy Um Ud Uh) st.lat st.lon
              (hsysOf st.houseIdx) with
          | none => rw [h5] at h3; cases h3
          | some H2 =>
            rw [h5] at h3
            simp only [Except.ok.injEq, Prod.mk.injEq] at h3
            exact ⟨_, by rw [h4, h3.1]⟩

/-- The invariant of the displayed state: when `hasResult` is set, `outBodies` is the
result of a successful `computePlanets`. -/
theorem computeHandler_invariant (svc : Services) (st : UiState) :
    (computeHandler svc st).hasResult = true →
      ∃ f, computePlanets f = some (computeHandler svc st).outBodies := by
  have hs := computeTry_success svc st
  unfold computeHandler
  rcases hct : computeTry svc st with ⟨st1, o⟩
  rw [hct] at hs
  cases o with
  | none => intro _; exact (hs rfl).2
  | some msg => intro h; simp at h

theorem uiStep_invariant (svc : Services) (st : UiState) (e : UiEvent)
    (hinv : st.hasResult = true → ∃ f, computePlanets f = some st.outBodies) :
    (uiStep svc st e).hasResult = true →
      ∃ f, computePlanets f = some (uiStep svc st e).outBodies := by
  cases e with
  | compute => exact computeHandler_invariant svc st
  | setTs s => exact hinv
  | setInputIsLocal b => exact hinv
  | selectCity lat lon tzid => exact hinv
  | setLat v => exact hinv
  | setLon v => exact hinv
  | setHouseIdx i => exact hinv

theorem reachable_invariant (svc : Services) (events : List UiEvent) :
    ∀ st : UiState, (st.hasResult = true → ∃ f, computePlanets f = some st.outBodies) →
      (events.foldl (uiStep svc) st).hasResult = true →
      ∃ f, computePlanets f = some (events.foldl (uiStep svc) st).outBodies := by
  induction events with
  | nil => intro st hinv; exact hinv
  | cons e rest ih =>
    intro st hinv
    exact ih (uiStep svc st e) (uiStep_invariant svc st e hinv)

theorem initial_ts_form :
    initialUiState.ts = datetime19 ['1', '9', '9', '6'] ['0', '2'] ['1', '2'] ['1', '6'] ['2', '0']
      ['0', '0'] := by
  decide

/-- From the initial state, with `stdServices`, a press of Compute succeeds. -/
theorem compute_initial_succeeds :
    (computeHandler stdServices initialUiState).hasResult = true := by
  have hp := (parse_datetime19 stdServices stdServices_readsDigits ['1', '9', '9', '6']
    ['0', '2'] ['1', '2'] ['1', '6'] ['2', '0'] ['0', '0'] rfl rfl rfl rfl rfl rfl
    (by decide) (by decide) (by decide) (by decide) (by decide) (by decide)).1
  rw [← initial_ts_form] at hp
  have hs : String.isEmpty "UTC" = false := by decide
  have hpu : prepareUtc stdServices initialUiState (decOf ['1', '9', '9', '6'] : Int)
      (decOf ['0', '2'] : Int) (decOf ['1', '2'] : Int)
      ((decOf ['1', '6'] : ℚ) + (decOf ['2', '0'] : ℚ) / 60 + (decOf ['0', '0'] : ℚ) / 3600) =
      .ok ((decOf ['1', '9', '9', '6'] : Int), (decOf ['0', '2'] : Int),
        (decOf ['1', '2'] : Int),
        (((splitHour ((decOf ['1', '6'] : ℚ) + (decOf ['2', '0'] : ℚ) / 60
            + (decOf ['0', '0'] : ℚ) / 3600)).1 : Int) : ℚ)
          + (((splitHour ((decOf ['1', '6'] : ℚ) + (decOf ['2', '0'] : ℚ) / 60
            + (decOf ['0', '0'] : ℚ) / 3600)).2.1 : Int) : ℚ) / 60
          + (((splitHour ((decOf ['1', '6'] : ℚ) + (decOf ['2', '0'] : ℚ) / 60
            + (decOf ['0', '0'] : ℚ) / 3600)).2.2 : Int) : ℚ) / 3600) := by
    simp only [prepareUtc, initialUiState, hs, stdServices, if_true, Bool.false_eq_true,
      if_false]
  have hch : ∀ (Y M D : Int) (hour lat lon : ℚ) (hsys : Char),
      chartCompute stdServices Y M D hour lat lon hsys = .ok (sampleBodies, sampleHouses) := by
    intro Y M D hour lat lon hsys
    have : computePlanets (stdServices.swe_calc_ut (stdServices.swe_julday Y M D hour))
        = some sampleBodies := computePlanets_sample
    simp only [chartCompute, this]
    rfl
  simp only [computeHandler, computeTry, hp, hpu, hch]

/-! ## The claims on parsing, the Node point, body classes and formatting -/

/-- C22, evaluation. On the thirteen bodies that `computePlanets` produces from
`nodeEphemeris` (True Node at 110 degrees, Lilith, the last body, at 120), with
the Node flag alone set, the point appended under the name `True Node` has the
longitude 120 of Lilith, not the longitude 110 of the body named `True Node`. -/
theorem node_point_has_last_body_longitude :
    computePlanets nodeEphemeris = some nodeBodies ∧
      (assemblePoints sampleWheel ⟨false, false, true, false, false⟩ nodeBodies
          sampleHouses).map (fun ps => ps.map (fun p => (p.name, p.lon))) =
        some (nodeBodies.map (fun b => (b.name, b.lon)) ++ [("True Node", 120)]) ∧
      (nodeBodies.find? (fun b => b.name == "True Node")).map Body.lon = some 110 ∧
      (nodeBodies.find? (fun b => b.name == "Lilith")).map Body.lon = some 120 := by
  refine ⟨computePlanets_node, ?_, ?_, ?_⟩
  · simp [assemblePoints, pushBodies_eq, nodeBodies, mkP]
  · simp [nodeBodies]
  · simp [nodeBodies]

/-- C23, counterexample. The fallback name `Body` of the `switch` in `computePlanets` is
not one of the ten planet names, and its orb weight is the global multiplier
alone, which with the initial multipliers differs from `global * points`. -/
theorem fallback_body_weight_is_global :
    bodyName 10 = "Body" ∧ "Body" ∉ planetNames ∧
      orb_weight_for gOrbInit "Body" = gOrbInit.gOrbGlobal ∧
      orb_weight_for gOrbInit "Body" ≠ gOrbInit.gOrbGlobal * gOrbInit.gOrbPoints := by
  refine ⟨by decide, by decide, ?_, ?_⟩
  · exact orb_weight_for_unlisted gOrbInit "Body" (by decide)
  · rw [orb_weight_for_unlisted gOrbInit "Body" (by decide)]
    norm_num [gOrbInit]

/-- C23, amended. For a name that is not one of the ten planet names, the orb
weight is `global * points` when the name is ASC, MC, True Node, Mean Node, Chiron
or Lilith, and `global * 1` for every other name, the fallback name `Body`
included; every body that `computePlanets` produces outside the ten planets (True
Node, Chiron, Lilith) has the weight `global * points`. -/
theorem orb_weight_outside_planets (g : OrbSettings) (n : String) (hn : n ∉ planetNames) :
    (n ∈ ["ASC", "MC", "True Node", "Mean Node", "Chiron", "Lilith"] →
        orb_weight_for g n = g.gOrbGlobal * g.gOrbPoints) ∧
      (n ∉ ["ASC", "MC", "True Node", "Mean Node", "Chiron", "Lilith"] →
        orb_weight_for g n = g.gOrbGlobal * 1) ∧
      orb_weight_for g "Body" = g.gOrbGlobal * 1 ∧
      ∀ ipl ∈ kBodies, bodyName ipl ∉ planetNames →
        orb_weight_for g (bodyName ipl) = g.gOrbGlobal * g.gOrbPoints := by
  refine ⟨?_, ?_, ?_, ?_⟩
  · intro h
    simp only [List.mem_cons, List.mem_singleton, List.not_mem_nil, or_false] at h
    rcases h with h | h | h | h | h | h <;> subst h <;> simp [orb_weight_for, mul_comm]
  · intro h
    rw [mul_one]
    apply orb_weight_for_unlisted
    simp only [planetNames, List.mem_cons, List.mem_singleton, List.not_mem_nil, or_false,
      not_or] at hn h ⊢
    obtain ⟨a1, a2, a3, a4, a5, a6, a7, a8, a9, a10⟩ := hn
    obtain ⟨b1, b2, b3, b4, b5, b6⟩ := h
    exact ⟨a1, a2, a3, a4, a5, a6, a7, a8, a9, a10, b1, b2, b3, b4, b5, b6⟩
  · rw [mul_one]
    exact orb_weight_for_unlisted g "Body" (by decide)
  · intro ipl hipl hout
    simp only [kBodies, List.mem_cons, List.mem_singleton, List.not_mem_nil, or_false] at hipl
    rcases hipl with h | h | h | h | h | h | h | h | h | h | h | h | h <;> subst h <;>
      first
        | exact absurd (by decide) hout
        | simp [bodyName, orb_weight_for, mul_comm]

theorem orb_weight_outside_planets_witness :
    "Chiron" ∉ planetNames ∧
    (("Chiron" ∈ ["ASC", "MC", "True Node", "Mean Node", "Chiron", "Lilith"] →
        orb_weight_for gOrbInit "Chiron" = gOrbInit.gOrbGlobal * gOrbInit.gOrbPoints) ∧
      ("Chiron" ∉ ["ASC", "MC", "True Node", "Mean Node", "Chiron", "Lilith"] →
        orb_weight_for gOrbInit "Chiron" = gOrbInit.gOrbGlobal * 1) ∧
      orb_weight_for gOrbInit "Body" = gOrbInit.gOrbGlobal * 1 ∧
      ∀ ipl ∈ kBodies, bodyName ipl ∉ planetNames →
        orb_weight_for gOrbInit (bodyName ipl) = gOrbInit.gOrbGlobal * gOrbInit.gOrbPoints) :=
  ⟨by decide, orb_weight_outside_planets gOrbInit "Chiron" (by decide)⟩

/-- C27. Round trip of the local-time split, in exact arithmetic: for integers
`0 ≤ h ≤ 23`, `0 ≤ m ≤ 59`, `0 ≤ s ≤ 59`, the split of `h + m/60 + s/3600` into `hh`,
`mm`, `ss` by the Compute handler gives back `h`, `m`, `s`. -/
theorem splitHour_roundtrip (h m s : Int) (hh0 : 0 ≤ h) (_hh1 : h ≤ 23) (hm0 : 0 ≤ m)
    (hm1 : m ≤ 59) (hs0 : 0 ≤ s) (hs1 : s ≤ 59) :
    splitHour ((h : ℚ) + (m : ℚ) / 60 + (s : ℚ) / 3600) = (h, m, s) := by
  have qh0 : (0 : ℚ) ≤ h := by exact_mod_cast hh0
  have qm0 : (0 : ℚ) ≤ m := by exact_mod_cast hm0
  have qm1 : (m : ℚ) ≤ 59 := by exact_mod_cast hm1
  have qs0 : (0 : ℚ) ≤ s := by exact_mod_cast hs0
  have qs1 : (s : ℚ) ≤ 59 := by exact_mod_cast hs1
  have e1 : truncQ ((h : ℚ) + (m : ℚ) / 60 + (s : ℚ) / 3600) = h :=
    truncQ_eq_of_range _ h (by linarith) (by linarith) (by linarith)
  have e2 : truncQ (((h : ℚ) + (m : ℚ) / 60 + (s : ℚ) / 3600 - (h : ℚ)) * 60 + 1 / 1000000)
      = m :=
    truncQ_eq_of_range _ m (by linarith) (by linarith) (by linarith)
  have e3 : truncQ (((h : ℚ) + (m : ℚ) / 60 + (s : ℚ) / 3600 - (h : ℚ) - (m : ℚ) / 60) * 3600
      + 1 / 2) = s :=
    truncQ_eq_of_range _ s (by linarith) (by linarith) (by linarith)
  simp only [splitHour, e1, e2, e3]

theorem splitHour_roundtrip_witness :
    splitHour (((16 : Int) : ℚ) + ((20 : Int) : ℚ) / 60 + ((59 : Int) : ℚ) / 3600) = (16, 20, 59) :=
  splitHour_roundtrip 16 20 59 (by decide) (by decide) (by decide) (by decide) (by decide)
    (by decide)

/-- C28. In exact arithmetic, `toDMS` returns the floor of its argument as `deg`, a
minute in `[0, 59]` and a second in `[0, 60)` with `deg + min/60 + sec/3600` equal to
the argument; and for every longitude the values that `fmtLongitude` computes are
a sign index `floor (norm360 lon / 30)` in `[0, 11]`, a within-sign value in
`[0, 30)` and a `deg` in `[0, 29]`. -/
theorem toDMS_and_sign_index (degrees lon : ℚ) :
    ((toDMS degrees).deg = ⌊degrees⌋ ∧
      0 ≤ (toDMS degrees).min ∧ (toDMS degrees).min ≤ 59 ∧
      0 ≤ (toDMS degrees).sec ∧ (toDMS degrees).sec < 60 ∧
      ((toDMS degrees).deg : ℚ) + ((toDMS degrees).min : ℚ) / 60 + (toDMS degrees).sec / 3600
        = degrees) ∧
    ((fmtLongitudeParts lon).1 = ⌊norm360 lon / 30⌋ ∧
      0 ≤ (fmtLongitudeParts lon).1 ∧ (fmtLongitudeParts lon).1 ≤ 11 ∧
      0 ≤ (fmtLongitudeParts lon).2.1 ∧ (fmtLongitudeParts lon).2.1 < 30 ∧
      (fmtLongitudeParts lon).2.2 = toDMS (fmtLongitudeParts lon).2.1 ∧
      0 ≤ (fmtLongitudeParts lon).2.2.deg ∧ (fmtLongitudeParts lon).2.2.deg ≤ 29) := by
  refine ⟨toDMS_parts degrees, ?_⟩
  obtain ⟨_, _, n0, n1⟩ := norm360_spec lon
  have hq0 : 0 ≤ norm360 lon / 30 := by positivity
  have hfl0 : 0 ≤ ⌊norm360 lon / 30⌋ := Int.floor_nonneg.mpr hq0
  have hfl1 : ⌊norm360 lon / 30⌋ < 12 := by
    apply Int.floor_lt.mpr
    push_cast
    rw [div_lt_iff₀ (by norm_num)]
    linarith
  have htr : truncQ (norm360 lon / 30) = ⌊norm360 lon / 30⌋ := by
    simp only [truncQ, if_pos hq0]
  have hidx : (fmtLongitudeParts lon).1 = ⌊norm360 lon / 30⌋ := by
    simp only [fmtLongitudeParts, htr]
    exact Int.tmod_eq_of_lt hfl0 hfl1
  obtain ⟨w0, w1⟩ := fmodf_nonneg_lt (norm360 lon) 30 n0 (by norm_num)
  have hw : (fmtLongitudeParts lon).2.1 = fmodf (norm360 lon) 30 := rfl
  have hdms : (fmtLongitudeParts lon).2.2 = toDMS (fmtLongitudeParts lon).2.1 := rfl
  have hdeg := (toDMS_parts (fmodf (norm360 lon) 30)).1
  refine ⟨hidx, by rw [hidx]; exact hfl0, by rw [hidx]; omega, by rw [hw]; exact w0,
    by rw [hw]; exact w1, hdms, ?_, ?_⟩
  · rw [hdms, hw, hdeg]
    exact Int.floor_nonneg.mpr w0
  · rw [hdms, hw, hdeg]
    have : ⌊fmodf (norm360 lon) 30⌋ < 30 := by
      apply Int.floor_lt.mpr
      push_cast
      exact w1
    omega

/-- C21. Given conversions that read decimal digits as `std::stoi` and `std::stod` do,
every string `YYYY-MM-DD HH:MM:SS` with decimal digits in the fields is accepted
by the parser of `ui_main.cpp` and `Main.cpp` and by the parser of `Astrology.cpp`, with
year, month and day the decimal values of the fields and hour
`HH + MM/60 + SS/3600`; a string `YYYY-MM-DD HH:MM` of 16 characters is accepted by the
first parser with the seconds taken as 0; every string shorter than 16 characters
is rejected by the first parser and every string shorter than 19 by the second. -/
theorem parseUtcDateTime_accepts_format (svc : Services) (hrd : ReadsDigits svc)
    (Y Mo D H Mi S : List Char)
    (lY : Y.length = 4) (lMo : Mo.length = 2) (lD : D.length = 2) (lH : H.length = 2)
    (lMi : Mi.length = 2) (lS : S.length = 2)
    (dY : ∀ c ∈ Y, isdigit c = true) (dMo : ∀ c ∈ Mo, isdigit c = true)
    (dD : ∀ c ∈ D, isdigit c = true) (dH : ∀ c ∈ H, isdigit c = true)
    (dMi : ∀ c ∈ Mi, isdigit c = true) (dS : ∀ c ∈ S, isdigit c = true) :
    parseUtcDateTime svc (datetime19 Y Mo D H Mi S) =
        some ((decOf Y : Int), (decOf Mo : Int), (decOf D : Int),
          (decOf H : ℚ) + (decOf Mi : ℚ) / 60 + (decOf S : ℚ) / 3600) ∧
      parseUtcDateTimeAstrology svc (datetime19 Y Mo D H Mi S) =
        some ((decOf Y : Int), (decOf Mo : Int), (decOf D : Int),
          (decOf H : ℚ) + (decOf Mi : ℚ) / 60 + (decOf S : ℚ) / 3600) ∧
      parseUtcDateTime svc (datetime16 Y Mo D H Mi) =
        some ((decOf Y : Int), (decOf Mo : Int), (decOf D : Int),
          (decOf H : ℚ) + (decOf Mi : ℚ) / 60 + 0 / 3600) ∧
      (∀ s : String, s.length < 16 → parseUtcDateTime svc s = none) ∧
      (∀ s : String, s.length < 19 → parseUtcDateTimeAstrology svc s = none) := by
  obtain ⟨h19, h19a⟩ := parse_datetime19 svc hrd Y Mo D H Mi S lY lMo lD lH lMi lS dY dMo dD
    dH dMi dS
  refine ⟨h19, h19a, parse_datetime16 svc hrd Y Mo D H Mi lY lMo lD lH lMi dY dMo dD dH dMi,
    ?_, ?_⟩
  · intro s hs
    simp only [parseUtcDateTime, if_pos hs]
  · intro s hs
    simp only [parseUtcDateTimeAstrology, if_pos hs]

theorem parseUtcDateTime_accepts_format_witness :
    ReadsDigits stdServices ∧
    datetime19 ['1', '9', '9', '6'] ['0', '2'] ['1', '2'] ['1', '6'] ['2', '0'] ['0', '0']
      = "1996-02-12 16:20:00" ∧
    (parseUtcDateTime stdServices
        (datetime19 ['1', '9', '9', '6'] ['0', '2'] ['1', '2'] ['1', '6'] ['2', '0'] ['0', '0']) =
        some ((decOf ['1', '9', '9', '6'] : Int), (decOf ['0', '2'] : Int),
          (decOf ['1', '2'] : Int),
          (decOf ['1', '6'] : ℚ) + (decOf ['2', '0'] : ℚ) / 60 + (decOf ['0', '0'] : ℚ) / 3600) ∧
      parseUtcDateTimeAstrology stdServices
        (datetime19 ['1', '9', '9', '6'] ['0', '2'] ['1', '2'] ['1', '6'] ['2', '0'] ['0', '0']) =
        some ((decOf ['1', '9', '9', '6'] : Int), (decOf ['0', '2'] : Int),
          (decOf ['1', '2'] : Int),
          (decOf ['1', '6'] : ℚ) + (decOf ['2', '0'] : ℚ) / 60 + (decOf ['0', '0'] : ℚ) / 3600) ∧
      parseUtcDateTime stdServices
        (datetime16 ['1', '9', '9', '6'] ['0', '2'] ['1', '2'] ['1', '6'] ['2', '0']) =
        some ((decOf ['1', '9', '9', '6'] : Int), (decOf ['0', '2'] : Int),
          (decOf ['1', '2'] : Int),
          (decOf ['1', '6'] : ℚ) + (decOf ['2', '0'] : ℚ) / 60 + 0 / 3600) ∧
      (∀ s : String, s.length < 16 → parseUtcDateTime stdServices s = none) ∧
      (∀ s : String, s.length < 19 → parseUtcDateTimeAstrology stdServices s = none)) :=
  ⟨stdServices_readsDigits, by decide,
    parseUtcDateTime_accepts_format stdServices stdServices_readsDigits ['1', '9', '9', '6']
      ['0', '2'] ['1', '2'] ['1', '6'] ['2', '0'] ['0', '0'] rfl rfl rfl rfl rfl rfl
      (by decide) (by decide) (by decide) (by decide) (by decide) (by decide)⟩

/-- C24, evaluation. With `std_stoi` as the integer conversion, the parser of
`ui_main.cpp` and `Main.cpp` accepts the 16-character string `1996x02x12x16x20`, which
has none of the separators of the format, and returns the year 1996, the month
2, the day 12 and the hour `16 + 20/60`: the characters between the fields are
never examined. -/
theorem parse_accepts_without_separators :
    parseUtcDateTime stdServices "1996x02x12x16x20" =
      some (1996, 2, 12, (16 : ℚ) + (20 : ℚ) / 60 + 0 / 3600) := by
  obtain ⟨e1, e2, e3, e4, e5⟩ := std_stoi_samples
  have s1 : substr "1996x02x12x16x20" 0 4 = "1996" := by decide
  have s2 : substr "1996x02x12x16x20" 5 2 = "02" := by decide
  have s3 : substr "1996x02x12x16x20" 8 2 = "12" := by decide
  have s4 : substr "1996x02x12x16x20" 11 2 = "16" := by decide
  have s5 : substr "1996x02x12x16x20" 14 2 = "20" := by decide
  have l1 : ¬ ("1996x02x12x16x20".length < 16) := by decide
  have l2 : ¬ ("1996x02x12x16x20".length ≥ 19) := by decide
  simp only [parseUtcDateTime, if_neg l1, if_neg l2, s1, s2, s3, s4, s5, stdServices, e1, e2, e3,
    e4, e5]
  norm_num

/-- C25. For every catalog with the angles and base orbs of the initial catalog
(any enabled flags and colours, as every sequence of edits of the panel leaves
it) and all orb multipliers within their slider ranges, a pair of points whose
separation is below 0.4 degrees yields no aspect, whatever the names; in
particular two points at the same longitude are never joined. -/
theorem near_zero_separation_never_drawn (cat : List AspectSetting) (g : OrbSettings)
    (p q : P) (hcat : HasDefaultAngles cat) (hg : InSliderRange g) :
    (sepOf p q < 2 / 5 → aspectFor cat g p q = none) ∧
      (p.lon = q.lon → aspectFor cat g p q = none) ∧
      ∀ edits : List ConfigEdit, HasDefaultAngles (edits.foldl applyEdit startupConfig).aspects := by
  have main : sepOf p q < 2 / 5 → aspectFor cat g p q = none := by
    intro hsep
    obtain ⟨sc0, sc1⟩ := scaleOf_slider_bounds g hg p q
    cases hb : selectBest cat (sepOf p q) (scaleOf g p q) with
    | none => simp only [aspectFor, drawnAspect, hb]
    | some k =>
      obtain ⟨⟨A, hA, hc, _, _⟩, _⟩ := (selectBest_eq_some_iff cat _ _ k).mp hb
      rcases default_angles_cases cat hcat A (List.getElem?_mem hA) with ⟨ha, _⟩ | ⟨ha, hb0, hb1⟩
      · simp only [aspectFor, drawnAspect, hb, hA]
        rw [if_pos ⟨ha, hsep⟩]
      · exfalso
        have hd : deltaOf (sepOf p q) A ≤ A.base_orb * scaleOf g p q := hc.2
        have hge : A.angle - sepOf p q ≤ deltaOf (sepOf p q) A := by
          have := neg_le_abs (sepOf p q - A.angle)
          simp only [deltaOf]
          linarith
        have hprod : A.base_orb * scaleOf g p q ≤ 25 := by
          nlinarith [mul_nonneg (sub_nonneg.mpr hb1) (sub_nonneg.mpr sc1),
            mul_nonneg hb0 (sub_nonneg.mpr sc1)]
        linarith
  refine ⟨main, ?_, ?_⟩
  · intro hlon
    apply main
    have h0 : fmodf |q.lon - q.lon| 360 = 0 := by
      rw [sub_self, abs_zero]
      exact fmodf_360_of_lt 0 (le_refl _) (by norm_num)
    simp only [sepOf, hlon, shortest_sep, h0]
    norm_num
  · intro edits
    have step : ∀ (es : List ConfigEdit) (c : Config), HasDefaultAngles c.aspects →
        HasDefaultAngles (es.foldl applyEdit c).aspects := by
      intro es
      induction es with
      | nil => intro c hc; exact hc
      | cons e rest ih => intro c hc; exact ih _ (applyEdit_keeps_angles c e hc)
    exact step edits startupConfig rfl

theorem near_zero_separation_never_drawn_witness :
    HasDefaultAngles gAspects ∧ InSliderRange gOrbInit ∧
      ((sepOf (samplePoint 150 "Chiron") (samplePoint 150 "Chiron") < 2 / 5 →
          aspectFor gAspects gOrbInit (samplePoint 150 "Chiron") (samplePoint 150 "Chiron")
            = none) ∧
        ((samplePoint 150 "Chiron").lon = (samplePoint 150 "Chiron").lon →
          aspectFor gAspects gOrbInit (samplePoint 150 "Chiron") (samplePoint 150 "Chiron")
            = none) ∧
        ∀ edits : List ConfigEdit,
          HasDefaultAngles (edits.foldl applyEdit startupConfig).aspects) := by
  have hg : InSliderRange gOrbInit := by
    simp only [InSliderRange, gOrbInit]
    norm_num
  exact ⟨rfl, hg,
    near_zero_separation_never_drawn gAspects gOrbInit (samplePoint 150 "Chiron")
      (samplePoint 150 "Chiron") rfl hg⟩

/-- C26. In every state reached from the initial state by any sequence of
interactions, Compute presses included, `hasResult` being set implies that
`outBodies` is the result of a successful `computePlanets`: thirteen bodies with the
thirteen names, hence not empty, and point assembly, which reads
`outBodies.back()`, returns a result for every setting of the flags. -/
theorem hasResult_implies_thirteen_bodies (svc : Services) (events : List UiEvent)
    (h : (events.foldl (uiStep svc) initialUiState).hasResult = true) :
    (∃ f, computePlanets f = some (events.foldl (uiStep svc) initialUiState).outBodies) ∧
      (events.foldl (uiStep svc) initialUiState).outBodies.length = 13 ∧
      (events.foldl (uiStep svc) initialUiState).outBodies.map Body.name =
        ["Sun", "Moon", "Mercury", "Venus", "Mars", "Jupiter", "Saturn", "Uranus", "Neptune",
          "Pluto", "True Node", "Chiron", "Lilith"] ∧
      (events.foldl (uiStep svc) initialUiState).outBodies ≠ [] ∧
      ∀ (w : Wheel) (g : PointFlags), ∃ ps,
        assemblePoints w g (events.foldl (uiStep svc) initialUiState).outBodies
          (events.foldl (uiStep svc) initialUiState).outH = some ps := by
  have hinit : initialUiState.hasResult = true →
      ∃ f, computePlanets f = some initialUiState.outBodies := by
    intro hcon
    exact absurd hcon (by decide)
  obtain ⟨f, hf⟩ := reachable_invariant svc events initialUiState hinit h
  obtain ⟨hnames, hlen⟩ := computePlanets_names f _ hf
  have hne : (events.foldl (uiStep svc) initialUiState).outBodies ≠ [] := by
    intro e
    rw [e] at hlen
    cases hlen
  refine ⟨⟨f, hf⟩, hlen, hnames, hne, ?_⟩
  intro w g
  obtain ⟨ps, extras, hps, _⟩ := assemblePoints_shape w g _
    (events.foldl (uiStep svc) initialUiState).outH hne
  exact ⟨ps ++ extras, hps⟩

theorem hasResult_implies_thirteen_bodies_witness :
    ([UiEvent.compute].foldl (uiStep stdServices) initialUiState).hasResult = true ∧
    ((∃ f, computePlanets f =
        some ([UiEvent.compute].foldl (uiStep stdServices) initialUiState).outBodies) ∧
      ([UiEvent.compute].foldl (uiStep stdServices) initialUiState).outBodies.length = 13 ∧
      ([UiEvent.compute].foldl (uiStep stdServices) initialUiState).outBodies.map Body.name =
        ["Sun", "Moon", "Mercury", "Venus", "Mars", "Jupiter", "Saturn", "Uranus", "Neptune",
          "Pluto", "True Node", "Chiron", "Lilith"] ∧
      ([UiEvent.compute].foldl (uiStep stdServices) initialUiState).outBodies ≠ [] ∧
      ∀ (w : Wheel) (g : PointFlags), ∃ ps,
        assemblePoints w g ([UiEvent.compute].foldl (uiStep stdServices) initialUiState).outBodies
          ([UiEvent.compute].foldl (uiStep stdServices) initialUiState).outH = some ps) :=
  ⟨compute_initial_succeeds,
    hasResult_implies_thirteen_bodies stdServices [UiEvent.compute] compute_initial_succeeds⟩

/-! ## Lemmas on double rounding and on the catalogs the program can hold -/

/-- The binary exponent of a positive rational between `2 ^ e` and `2 ^ (e + 1)`. -/
theorem int_log_two_eq (q : ℚ) (e : ℤ) (hq : 0 < q) (h1 : (2 : ℚ) ^ e ≤ q)
    (h2 : q < (2 : ℚ) ^ (e + 1)) : Int.log 2 q = e := by
  have a : e ≤ Int.log 2 q :=
    (Int.zpow_le_iff_le_log (by norm_num) hq).mp (by exact_mod_cast h1)
  have b : Int.log 2 q < e + 1 :=
    (Int.lt_zpow_iff_log_lt (by norm_num) hq).mp (by exact_mod_cast h2)
  omega

/-- On a negative value above -360, `fmodf` by 360 is the identity. -/
theorem fmodf_360_small_neg (x : ℚ) (h0 : -360 < x) (h1 : x < 0) : fmodf x 360 = x := by
  have hneg : x / 360 < 0 := div_neg_of_neg_of_pos h1 (by norm_num)
  have hq : ¬ (0 ≤ x / 360) := by linarith
  have hc : ⌈x / 360⌉ = 0 := by
    rw [Int.ceil_eq_iff]
    constructor
    · have : -1 < x / 360 := by rw [lt_div_iff₀ (by norm_num)]; linarith
      push_cast; linarith
    · push_cast; linarith
  simp [fmodf, truncQ, hq, hc]

/-- The sum `-2^-70 + 360` rounds to the double 360. -/
theorem roundDouble_near_360 : roundDouble (-(1 / 2 ^ 70) + 360) = 360 := by
  have hpos : (0 : ℚ) < -(1 / 2 ^ 70) + 360 := by norm_num
  have hne : (-(1 / 2 ^ 70) + 360 : ℚ) ≠ 0 := ne_of_gt hpos
  have hlog : Int.log 2 |(-(1 / 2 ^ 70) + 360 : ℚ)| = 8 := by
    rw [abs_of_pos hpos]
    exact int_log_two_eq _ 8 hpos (by norm_num) (by norm_num)
  have hfl : ⌊(-(1 / 2 ^ 70) + 360 : ℚ) / (2 : ℚ) ^ ((8 : ℤ) - 52)⌋ = 360 * 2 ^ 44 - 1 := by
    rw [Int.floor_eq_iff]
    constructor <;> norm_num
  have hr : roundHalfEven ((-(1 / 2 ^ 70) + 360 : ℚ) / (2 : ℚ) ^ ((8 : ℤ) - 52))
      = 360 * 2 ^ 44 := by
    simp only [roundHalfEven, hfl]
    norm_num
  simp only [roundDouble, if_neg hne, hlog, hr]
  norm_num

/-- The argument `-2^-70` is a double: rounding leaves it unchanged. -/
theorem roundDouble_tiny_neg : roundDouble (-(1 / 2 ^ 70)) = -(1 / 2 ^ 70) := by
  have hne : (-(1 / 2 ^ 70) : ℚ) ≠ 0 := by norm_num
  have hlog : Int.log 2 |(-(1 / 2 ^ 70) : ℚ)| = -70 := by
    rw [abs_neg, abs_of_pos (by norm_num)]
    exact int_log_two_eq _ (-70) (by norm_num) (by norm_num) (by norm_num)
  have hfl : ⌊(-(1 / 2 ^ 70) : ℚ) / (2 : ℚ) ^ ((-70 : ℤ) - 52)⌋ = -(2 ^ 52) := by
    rw [Int.floor_eq_iff]
    constructor <;> norm_num
  have hr : roundHalfEven ((-(1 / 2 ^ 70) : ℚ) / (2 : ℚ) ^ ((-70 : ℤ) - 52)) = -(2 ^ 52) := by
    simp only [roundHalfEven, hfl]
    norm_num
  simp only [roundDouble, if_neg hne, hlog, hr]
  norm_num

/-- The value 360 is a double: rounding leaves it unchanged. -/
theorem roundDouble_360 : roundDouble 360 = 360 := by
  have hne : (360 : ℚ) ≠ 0 := by norm_num
  have hlog : Int.log 2 |(360 : ℚ)| = 8 := by
    rw [abs_of_pos (by norm_num)]
    exact int_log_two_eq _ 8 (by norm_num) (by norm_num) (by norm_num)
  have hfl : ⌊(360 : ℚ) / (2 : ℚ) ^ ((8 : ℤ) - 52)⌋ = 360 * 2 ^ 44 := by
    rw [Int.floor_eq_iff]
    constructor <;> norm_num
  have hr : roundHalfEven ((360 : ℚ) / (2 : ℚ) ^ ((8 : ℤ) - 52)) = 360 * 2 ^ 44 := by
    simp only [roundHalfEven, hfl]
    norm_num
  simp only [roundDouble, if_neg hne, hlog, hr]
  norm_num

/-- In double arithmetic `norm360` maps the double `-2^-70` to 360. -/
theorem norm360_double_tiny_neg : norm360_double (-(1 / 2 ^ 70)) = 360 := by
  have hy : fmodf (-(1 / 2 ^ 70)) 360 = -(1 / 2 ^ 70) :=
    fmodf_360_small_neg _ (by norm_num) (by norm_num)
  simp only [norm360_double, hy]
  rw [if_pos (by norm_num)]
  exact roundDouble_near_360

/-- In double arithmetic `norm360` maps 360 to 0. -/
theorem norm360_double_360 : norm360_double 360 = 0 := by
  have hy : fmodf 360 360 = 0 := by
    simp [fmodf, truncQ]
  simp only [norm360_double, hy]
  norm_num

/-- On a non-negative argument no addition takes place, and `norm360` in double
arithmetic is the exact `norm360`. -/
theorem norm360_double_of_nonneg (x : ℚ) (hx : 0 ≤ x) : norm360_double x = norm360 x := by
  obtain ⟨_, _, h0, _⟩ := fmodf_360_nonneg x hx
  simp only [norm360_double, norm360]
  rw [if_neg (not_lt.mpr h0), if_neg (not_lt.mpr h0)]

/-- In a catalog with the default angles every angle lies in `[0, 180]`. -/
theorem default_angles_in_range (cat : List AspectSetting) (hcat : HasDefaultAngles cat) :
    ∀ A ∈ cat, 0 ≤ A.angle ∧ A.angle ≤ 180 := by
  intro A hA
  have hmem : (A.angle, A.base_orb) ∈ cat.map (fun A => (A.angle, A.base_orb)) :=
    List.mem_map.mpr ⟨A, hA, rfl⟩
  rw [hcat] at hmem
  simp only [gAspects, List.map_cons, List.map_nil, List.mem_cons, List.mem_singleton,
    List.not_mem_nil, or_false, Prod.mk.injEq] at hmem
  rcases hmem with h | h | h | h | h | h | h | h | h | h | h <;> obtain ⟨ha, _⟩ := h <;>
    rw [ha] <;> norm_num

/-- Every catalog reached from the startup configuration by edits of the panel has
the default angles and base orbs. -/
theorem reachable_has_default_angles (edits : List ConfigEdit) :
    HasDefaultAngles (edits.foldl applyEdit startupConfig).aspects := by
  have step : ∀ (es : List ConfigEdit) (c : Config), HasDefaultAngles c.aspects →
      HasDefaultAngles (es.foldl applyEdit c).aspects := by
    intro es
    induction es with
    | nil => intro c hc; exact hc
    | cons e rest ih => intro c hc; exact ih _ (applyEdit_keeps_angles c e hc)
  exact step edits startupConfig rfl

/-- With angles in `[0, 180]` the resolver loop selects exactly the first index
attaining the minimal candidate `delta`. -/
theorem bestFor_iff_first_best (cat : List AspectSetting) (g : OrbSettings) (p q : P)
    (hang : ∀ A ∈ cat, 0 ≤ A.angle ∧ A.angle ≤ 180) (k : Nat) :
    bestFor cat g p q = some k ↔ IsFirstBest cat (sepOf p q) (scaleOf g p q) k := by
  have hiff := selectBest_eq_some_iff cat (sepOf p q) (scaleOf g p q) k
  constructor
  · intro h
    exact (hiff.mp h).1
  · intro h
    refine hiff.mpr ⟨h, ?_⟩
    obtain ⟨A, hA, _⟩ := h
    refine ⟨A, hA, ?_⟩
    obtain ⟨s0, s1⟩ := shortest_sep_range p.lon q.lon
    have hmem := List.getElem?_mem hA
    have := deltaOf_le_180 (sepOf p q) A s0 s1 (hang A hmem).1 (hang A hmem).2
    linarith

/-! ## The claims on the tie-break and on `norm360` in double arithmetic -/

/-- C3. Tie-break. For every catalog whose angles lie in `[0, 180]`, the range of the
data model, which every catalog the program can hold satisfies, and for every
pair of points: the resolver loop selects the index `k` exactly when `k` is the
first catalog index attaining the minimal candidate `delta`; when the pair has a
candidate such an index is selected; of two candidates with the same `delta` the
later one is never selected; and the selection is a function of the inputs
alone, so repeated runs select the same definition. -/
theorem tie_break_earliest_wins (cat : List AspectSetting) (g : OrbSettings) (p q : P)
    (k : Nat) (hang : ∀ A ∈ cat, 0 ≤ A.angle ∧ A.angle ≤ 180) :
    (bestFor cat g p q = some k ↔ IsFirstBest cat (sepOf p q) (scaleOf g p q) k) ∧
      ((∃ A ∈ cat, IsCandidate (sepOf p q) (scaleOf g p q) A) →
        ∃ j, bestFor cat g p q = some j ∧ IsFirstBest cat (sepOf p q) (scaleOf g p q) j) ∧
      (∀ (i j : Nat) (A B : AspectSetting), i < j → cat[i]? = some A → cat[j]? = some B →
        IsCandidate (sepOf p q) (scaleOf g p q) A → IsCandidate (sepOf p q) (scaleOf g p q) B →
        deltaOf (sepOf p q) A = deltaOf (sepOf p q) B → bestFor cat g p q ≠ some j) ∧
      (∀ edits : List ConfigEdit,
        (∀ A ∈ (edits.foldl applyEdit startupConfig).aspects, 0 ≤ A.angle ∧ A.angle ≤ 180) ∧
        (bestFor (edits.foldl applyEdit startupConfig).aspects g p q = some k ↔
          IsFirstBest (edits.foldl applyEdit startupConfig).aspects (sepOf p q)
            (scaleOf g p q) k)) := by
  refine ⟨bestFor_iff_first_best cat g p q hang k, ?_, ?_, ?_⟩
  · rintro ⟨A, hA, hc⟩
    cases hb : bestFor cat g p q with
    | some j => exact ⟨j, rfl, (bestFor_iff_first_best cat g p q hang j).mp hb⟩
    | none =>
      exfalso
      have hfar := (selectBest_eq_none_iff cat _ _).mp hb A hA hc
      obtain ⟨s0, s1⟩ := shortest_sep_range p.lon q.lon
      have := deltaOf_le_180 (sepOf p q) A s0 s1 (hang A hA).1 (hang A hA).2
      linarith
  · intro i j A B hij hA hB hcA hcB hd hsel
    obtain ⟨B2, hB2, _, _, hfirst⟩ := (bestFor_iff_first_best cat g p q hang j).mp hsel
    rw [hB] at hB2
    cases hB2
    have := hfirst i A hij hA hcA
    linarith
  · intro edits
    have hr := default_angles_in_range _ (reachable_has_default_angles edits)
    exact ⟨hr, bestFor_iff_first_best _ g p q hr k⟩

theorem tie_break_earliest_wins_witness :
    (∀ A ∈ tieCatalog, 0 ≤ A.angle ∧ A.angle ≤ 180) ∧
      IsFirstBest tieCatalog (sepOf (samplePoint 0 "Sun") (samplePoint 120 "Moon"))
        (scaleOf gOrbInit (samplePoint 0 "Sun") (samplePoint 120 "Moon")) 1 ∧
      bestFor tieCatalog gOrbInit (samplePoint 0 "Sun") (samplePoint 120 "Moon") = some 1 :=
  ⟨tieCatalog_angles, tieCatalog_first_best,
    (tie_break_earliest_wins tieCatalog gOrbInit (samplePoint 0 "Sun")
      (samplePoint 120 "Moon") 1 tieCatalog_angles).1.mpr tieCatalog_first_best⟩

/-- C13, evaluation. The value `-2^-70` (about `-8.5e-22`) is a double, and in double
arithmetic `norm360` maps it to 360: `fmod` returns the argument, and `y + 360.0`
rounds to 360. The result is not below 360, and it does not differ from the argument
by an integer multiple of 360. -/
theorem norm360_double_leaves_range :
    roundDouble (-(1 / 2 ^ 70)) = -(1 / 2 ^ 70) ∧
      norm360_double (-(1 / 2 ^ 70)) = 360 ∧
      ¬ (norm360_double (-(1 / 2 ^ 70)) < 360) ∧
      ¬ ∃ k : ℤ, (-(1 / 2 ^ 70) : ℚ) - norm360_double (-(1 / 2 ^ 70)) = 360 * (k : ℚ) := by
  refine ⟨roundDouble_tiny_neg, norm360_double_tiny_neg, ?_, ?_⟩
  · rw [norm360_double_tiny_neg]
    norm_num
  · rw [norm360_double_tiny_neg]
    rintro ⟨k, hk⟩
    rcases le_or_lt k (-2) with h | h
    · have : (k : ℚ) ≤ -2 := by exact_mod_cast h
      have h2 : (-(1 / 2 ^ 70) : ℚ) - 360 > -720 := by norm_num
      linarith
    · have h1 : -1 ≤ k := by omega
      have : (-1 : ℚ) ≤ (k : ℚ) := by exact_mod_cast h1
      have h2 : (-(1 / 2 ^ 70) : ℚ) - 360 < -360 := by norm_num
      linarith

/-- C14, evaluation. In double arithmetic `norm360` is not idempotent at the double
`-2^-70`: the first application gives the double 360 and the second gives 0. -/
theorem norm360_double_not_idempotent :
    roundDouble (-(1 / 2 ^ 70)) = -(1 / 2 ^ 70) ∧ roundDouble 360 = 360 ∧
      norm360_double (-(1 / 2 ^ 70)) = 360 ∧
      norm360_double (norm360_double (-(1 / 2 ^ 70))) = 0 ∧
      norm360_double (norm360_double (-(1 / 2 ^ 70))) ≠ norm360_double (-(1 / 2 ^ 70)) := by
  refine ⟨roundDouble_tiny_neg, roundDouble_360, norm360_double_tiny_neg, ?_, ?_⟩
  · rw [norm360_double_tiny_neg, norm360_double_360]
  · rw [norm360_double_tiny_neg, norm360_double_360]
    norm_num

end AstrologyApp
